import Mathlib

/-!
# ifstatfake: the command language of `/proc/net/ifstatfake`

A shallow embedding of `src/ifstatfake.c`: the tokenising loop `parse_cmd`, the
per-attribute resolver `set_attr`, the executor `exec_cmd`, the error reporter
`error` and the write handler `ifstatfake_proc_write`.

Conventions of the embedding.

* A C string is the list of its characters; the terminating NUL is the end of
  the list.  The loop of `parse_cmd` still tests every character against NUL,
  as the source does, because the bytes copied from user space may contain one.
* `int` members holding enum values are natural numbers, the enum constants are
  the numbers the C compiler assigns to them.
* `unsigned long` is 64 bits wide (`ULONG_MOD`), arithmetic on it is reduced
  modulo `2 ^ 64`.
* A null pointer is `none`; dereferencing it, or indexing the 64-byte token
  buffer outside `0..63`, makes the embedded function return `none`.
* `printk` output is collected in the `log` of a result.
* A network device is a handle (`Dev`); the registry lookup `dev_get_by_name`
  is a parameter, the statistics records live in a store `Dev → net_device_stats`.
-/

namespace Ifstatfake

/-! ## Constants and enums -/

/-- The maximum length of a single command (`#define CMD_BUF_SIZE 64`). -/
abbrev CMD_BUF_SIZE : Nat := 64

/-- Number of values of an `unsigned long`. -/
abbrev ULONG_MOD : Nat := 2 ^ 64

/-- The NUL character that terminates a C string. -/
abbrev NUL : Char := Char.ofNat 0

/-- Value of `enum operation`: set the value. -/
abbrev SET : Nat := 0
/-- Value of `enum operation`: add to the value. -/
abbrev ADD : Nat := 1
/-- Value of `enum operation`: subtract from the value. -/
abbrev SUB : Nat := 2

/-- Value of `enum cmd_attr`: nothing set yet. -/
abbrev NONE : Nat := 0
/-- Value of `enum cmd_attr`: the device. -/
abbrev DEV : Nat := 1
/-- Value of `enum cmd_attr`: the direction. -/
abbrev RX_TX : Nat := 2
/-- Value of `enum cmd_attr`: the field. -/
abbrev FIELD : Nat := 3
/-- Value of `enum cmd_attr`: the operation and amount. -/
abbrev OP : Nat := 4

/-- Value of `enum rx_tx`: receive. -/
abbrev RX : Nat := 0
/-- Value of `enum rx_tx`: transmit. -/
abbrev TX : Nat := 1

/-- Value of `enum field`. -/
abbrev BYTES : Nat := 0
/-- Value of `enum field`. -/
abbrev PACKETS : Nat := 1
/-- Value of `enum field`. -/
abbrev ERRS : Nat := 2
/-- Value of `enum field`. -/
abbrev DROP : Nat := 3
/-- Value of `enum field`. -/
abbrev FIFO : Nat := 4
/-- Value of `enum field`. -/
abbrev FRAME : Nat := 5
/-- Value of `enum field`. -/
abbrev COMPRESSED : Nat := 6
/-- Value of `enum field`. -/
abbrev MULTICAST : Nat := 7
/-- Value of `enum field`. -/
abbrev COLLS : Nat := 8
/-- Value of `enum field`. -/
abbrev CARRIER : Nat := 9

/-- Value of `enum error`. -/
abbrev ERR_TOO_MUCH_ARGS : Nat := 0
/-- Value of `enum error`. -/
abbrev ERR_NOT_ENOUGH_ARGS : Nat := 1
/-- Value of `enum error`. -/
abbrev ERR_NO_SUCH_DEVICE : Nat := 2
/-- Value of `enum error`. -/
abbrev ERR_INVALID_RX_TX : Nat := 3
/-- Value of `enum error`. -/
abbrev ERR_INVALID_FIELD : Nat := 4
/-- Value of `enum error`. -/
abbrev ERR_INVALID_OP : Nat := 5

/-- Linux errno `E2BIG`. -/
abbrev E2BIG : Int := 7
/-- Linux errno `EFAULT`. -/
abbrev EFAULT : Int := 14
/-- Linux errno `EINVAL`. -/
abbrev EINVAL : Int := 22

/-! ## Data model -/

/-- Handle of a network device (`struct net_device*`, non-null). -/
abbrev Dev : Type := Nat

/-- The kernel's `struct net_device_stats`: 23 `unsigned long` counters. -/
structure net_device_stats where
  rx_packets : Nat
  tx_packets : Nat
  rx_bytes : Nat
  tx_bytes : Nat
  rx_errors : Nat
  tx_errors : Nat
  rx_dropped : Nat
  tx_dropped : Nat
  multicast : Nat
  collisions : Nat
  rx_length_errors : Nat
  rx_over_errors : Nat
  rx_crc_errors : Nat
  rx_frame_errors : Nat
  rx_fifo_errors : Nat
  rx_missed_errors : Nat
  tx_aborted_errors : Nat
  tx_carrier_errors : Nat
  tx_fifo_errors : Nat
  tx_heartbeat_errors : Nat
  tx_window_errors : Nat
  rx_compressed : Nat
  tx_compressed : Nat
deriving DecidableEq, Repr

/-- The members of `net_device_stats` whose address `exec_cmd` can take
(the possible non-null values of `pval`). -/
inductive Slot where
  | rx_bytes | tx_bytes
  | rx_packets | tx_packets
  | rx_errors | tx_errors
  | rx_dropped | tx_dropped
  | rx_fifo_errors | tx_fifo_errors
  | rx_frame_errors
  | rx_compressed | tx_compressed
  | multicast
  | collisions
  | tx_carrier_errors
deriving DecidableEq, Repr

/-- Read through a slot pointer: `*pval`. -/
def net_device_stats.get (s : net_device_stats) : Slot → Nat
  | .rx_bytes => s.rx_bytes
  | .tx_bytes => s.tx_bytes
  | .rx_packets => s.rx_packets
  | .tx_packets => s.tx_packets
  | .rx_errors => s.rx_errors
  | .tx_errors => s.tx_errors
  | .rx_dropped => s.rx_dropped
  | .tx_dropped => s.tx_dropped
  | .rx_fifo_errors => s.rx_fifo_errors
  | .tx_fifo_errors => s.tx_fifo_errors
  | .rx_frame_errors => s.rx_frame_errors
  | .rx_compressed => s.rx_compressed
  | .tx_compressed => s.tx_compressed
  | .multicast => s.multicast
  | .collisions => s.collisions
  | .tx_carrier_errors => s.tx_carrier_errors

/-- Write through a slot pointer: `*pval = v`. -/
def net_device_stats.set (s : net_device_stats) (p : Slot) (v : Nat) : net_device_stats :=
  match p with
  | .rx_bytes => { s with rx_bytes := v }
  | .tx_bytes => { s with tx_bytes := v }
  | .rx_packets => { s with rx_packets := v }
  | .tx_packets => { s with tx_packets := v }
  | .rx_errors => { s with rx_errors := v }
  | .tx_errors => { s with tx_errors := v }
  | .rx_dropped => { s with rx_dropped := v }
  | .tx_dropped => { s with tx_dropped := v }
  | .rx_fifo_errors => { s with rx_fifo_errors := v }
  | .tx_fifo_errors => { s with tx_fifo_errors := v }
  | .rx_frame_errors => { s with rx_frame_errors := v }
  | .rx_compressed => { s with rx_compressed := v }
  | .tx_compressed => { s with tx_compressed := v }
  | .multicast => { s with multicast := v }
  | .collisions => { s with collisions := v }
  | .tx_carrier_errors => { s with tx_carrier_errors := v }

/-- The statistics records of all devices (what `dev->get_stats(dev)` points to). -/
abbrev Store : Type := Dev → net_device_stats

/-- Replace the statistics record of one device. -/
def Store.update (σ : Store) (d : Dev) (s : net_device_stats) : Store :=
  fun e => if e = d then s else σ e

/-- The C `struct command`; `dev = none` is the null pointer. -/
structure command where
  dev : Option Dev
  rx_tx : Nat
  field : Nat
  operation : Nat
  amount : Nat
deriving DecidableEq, Repr

/-- The initialiser `struct command cmd = { 0, }`. -/
def command.zero : command :=
  { dev := none, rx_tx := 0, field := 0, operation := 0, amount := 0 }

/-- What a parsing function leaves behind: its `int` return value, the command
struct it wrote to, and the lines it handed to `printk`. -/
structure Result where
  ret : Int
  cmd : command
  log : List String
deriving DecidableEq, Repr

/-- What a write to the procfile leaves behind: the return value, the store
and the `printk` lines. -/
structure WriteResult where
  ret : Int
  store : Store
  log : List String

/-! ## Kernel library routines used by the source -/

/-- The kernel's `isspace` (table `_ctype` of `lib/ctype.c`): the bytes 9 to 13,
32 and 160. -/
def isspace (c : Char) : Bool :=
  (9 ≤ c.toNat && c.toNat ≤ 13) || c.toNat == 32 || c.toNat == 160

/-- The kernel's `isdigit`: the bytes `'0'` to `'9'`. -/
def isdigit (c : Char) : Bool :=
  48 ≤ c.toNat && c.toNat ≤ 57

/-- The digit loop of the kernel's `simple_strtoul` for base 10:
`result = result*base + value` in `unsigned long`, until the first character
that is not a decimal digit. -/
def simple_strtoul_loop : List Char → Nat → Nat
  | [], result => result
  | c :: cp, result =>
    if isdigit c then
      simple_strtoul_loop cp ((result * 10 + (c.toNat - 48)) % ULONG_MOD)
    else result

/-- The call `simple_strtoul(cp, 0, 10)`. -/
def simple_strtoul (cp : List Char) : Nat :=
  simple_strtoul_loop cp 0

/-! ## The source functions -/

/-- The function `error`: the syscall error code for a module error and the
warning it prints. -/
def error (err : Nat) : Int × List String :=
  if err = ERR_TOO_MUCH_ARGS then
    (-E2BIG, ["ifstatfake: Too much arguments given\n"])
  else if err = ERR_NOT_ENOUGH_ARGS then
    (-EINVAL, ["ifstatfake: Not enough arguments given\n"])
  else if err = ERR_NO_SUCH_DEVICE then
    (-EINVAL, ["ifstatfake: No such device\n"])
  else if err = ERR_INVALID_RX_TX then
    (-EINVAL, ["ifstatfake: Invalid rx/tx-flag\n"])
  else if err = ERR_INVALID_FIELD then
    (-EINVAL, ["ifstatfake: Invalid field-argument\n"])
  else if err = ERR_INVALID_OP then
    (-EINVAL, ["ifstatfake: Invalid operation-argument\n"])
  else (0, [])

/-- The statement `return error(err);` inside a parsing function whose command
struct currently is `cmd`. -/
def return_error (err : Nat) (cmd : command) : Result :=
  { ret := (error err).1, cmd := cmd, log := (error err).2 }

/-- The statement `return 0;` inside a parsing function. -/
def return_ok (cmd : command) : Result :=
  { ret := 0, cmd := cmd, log := [] }

/-- The field switch of `exec_cmd`: the address assigned to `pval`, `none` when
no case matches and `pval` keeps its initial null value. -/
def exec_cmd_pval (cmd : command) : Option Slot :=
  if cmd.field = BYTES then
    (if cmd.rx_tx = RX then some .rx_bytes else some .tx_bytes)
  else if cmd.field = PACKETS then
    (if cmd.rx_tx = RX then some .rx_packets else some .tx_packets)
  else if cmd.field = ERRS then
    (if cmd.rx_tx = RX then some .rx_errors else some .tx_errors)
  else if cmd.field = DROP then
    (if cmd.rx_tx = RX then some .rx_dropped else some .tx_dropped)
  else if cmd.field = FIFO then
    (if cmd.rx_tx = RX then some .rx_fifo_errors else some .tx_fifo_errors)
  else if cmd.field = FRAME then
    some .rx_frame_errors
  else if cmd.field = COMPRESSED then
    (if cmd.rx_tx = RX then some .rx_compressed else some .tx_compressed)
  else if cmd.field = MULTICAST then
    some .multicast
  else if cmd.field = COLLS then
    some .collisions
  else if cmd.field = CARRIER then
    some .tx_carrier_errors
  else none

/-- The operation switch of `exec_cmd` on the record `stats`, with `pval`
already assigned.  A case that matches dereferences `pval`. -/
def exec_cmd_op (cmd : command) (pval : Option Slot) (stats : net_device_stats) :
    Option net_device_stats :=
  if cmd.operation = SET then
    pval.map fun p => stats.set p cmd.amount
  else if cmd.operation = ADD then
    pval.map fun p => stats.set p ((stats.get p + cmd.amount) % ULONG_MOD)
  else if cmd.operation = SUB then
    pval.map fun p =>
      stats.set p (((stats.get p : Int) - (cmd.amount : Int)) % (ULONG_MOD : Int)).toNat
  else some stats

/-- The function `exec_cmd`: executes a command on the store. -/
def exec_cmd (σ : Store) (cmd : command) : Option Store :=
  match cmd.dev with
  | none => none
  | some d => (exec_cmd_op cmd (exec_cmd_pval cmd) (σ d)).map fun s => σ.update d s

/-- The function `set_attr`: sets a field in a command struct from a string. -/
def set_attr (dev_get_by_name : List Char → Option Dev) (cmd : command)
    (str : List Char) (attr : Nat) : Result :=
  if attr = NONE then return_ok cmd
  else if attr = DEV then
    match dev_get_by_name str with
    | none => return_error ERR_NO_SUCH_DEVICE { cmd with dev := none }
    | some d => return_ok { cmd with dev := some d }
  else if attr = RX_TX then
    if str = "rx".toList then return_ok { cmd with rx_tx := RX }
    else if str = "tx".toList then return_ok { cmd with rx_tx := TX }
    else return_error ERR_INVALID_RX_TX cmd
  else if attr = FIELD then
    if "bytes".toList = str then return_ok { cmd with field := BYTES }
    else if "packets".toList = str then return_ok { cmd with field := PACKETS }
    else if "errs".toList = str then return_ok { cmd with field := ERRS }
    else if "drop".toList = str then return_ok { cmd with field := DROP }
    else if "fifo".toList = str then return_ok { cmd with field := FIFO }
    else if "frame".toList = str ∧ cmd.rx_tx = RX then return_ok { cmd with field := FRAME }
    else if "compressed".toList = str then return_ok { cmd with field := COMPRESSED }
    else if "multicast".toList = str ∧ cmd.rx_tx = RX then
      return_ok { cmd with field := MULTICAST }
    else if "colls".toList = str ∧ cmd.rx_tx = TX then return_ok { cmd with field := COLLS }
    else if "carrier".toList = str ∧ cmd.rx_tx = TX then
      return_ok { cmd with field := CARRIER }
    else return_error ERR_INVALID_FIELD cmd
  else if attr = OP then
    if str.headD NUL = '=' then
      return_ok { cmd with operation := SET, amount := simple_strtoul str.tail }
    else if str.headD NUL = '+' then
      return_ok { cmd with operation := ADD, amount := simple_strtoul str.tail }
    else if str.headD NUL = '-' then
      return_ok { cmd with operation := SUB, amount := simple_strtoul str.tail }
    else return_error ERR_INVALID_OP cmd
  else return_ok cmd

/-- The code of `parse_cmd` after its loop: `if(attr != OP) return error(...); return 0;`. -/
def parse_cmd_end (attr : Nat) (cmd : command) : Result :=
  if attr ≠ OP then return_error ERR_NOT_ENOUGH_ARGS cmd else return_ok cmd

/-- The loop of `parse_cmd` from the state (`str + is`, `buf[0..ib)`, `attr`, `*cmd`).
The argument `buf` holds the `ib` characters appended since the last token.
The result is `none` when `buf[ib]` is written with `ib` outside `0..63`. -/
def parse_cmd_loop (dev_get_by_name : List Char → Option Dev) :
    List Char → List Char → Nat → command → Option Result
  | [], _, attr, cmd => some (parse_cmd_end attr cmd)
  | c :: str, buf, attr, cmd =>
    if c = NUL then some (parse_cmd_end attr cmd)
    else if isspace c then
      if CMD_BUF_SIZE ≤ buf.length then none
      else if buf = [] then parse_cmd_loop dev_get_by_name str buf attr cmd
      else
        let r := set_attr dev_get_by_name cmd buf (attr + 1)
        if r.ret ≠ 0 then some r
        else if attr + 1 > OP then some (return_error ERR_TOO_MUCH_ARGS r.cmd)
        else parse_cmd_loop dev_get_by_name str [] (attr + 1) r.cmd
    else
      if CMD_BUF_SIZE ≤ buf.length then none
      else if attr > OP then some (return_error ERR_TOO_MUCH_ARGS cmd)
      else parse_cmd_loop dev_get_by_name str (buf ++ [c]) attr cmd

/-- The function `parse_cmd`: parses a command line into the command struct `cmd`. -/
def parse_cmd (dev_get_by_name : List Char → Option Dev) (str : List Char)
    (cmd : command) : Option Result :=
  parse_cmd_loop dev_get_by_name str [] NONE cmd

/-- The buffer `kbuf` of `ifstatfake_proc_write` after the copy: the first
`min(count, 63)` bytes of the user buffer. -/
def kbuf_of (buffer : List Char) : List Char :=
  buffer.take (if buffer.length > CMD_BUF_SIZE - 1 then CMD_BUF_SIZE - 1 else buffer.length)

/-- The function `ifstatfake_proc_write`.  The user buffer is `some buffer`
with `count = buffer.length` when it can be read, `none` when `copy_from_user`
fails.  The result is `none` when `parse_cmd` or `exec_cmd` accesses memory
out of bounds or through a null pointer. -/
def ifstatfake_proc_write (dev_get_by_name : List Char → Option Dev) (σ : Store)
    (buffer : Option (List Char)) : Option WriteResult :=
  match buffer with
  | none => some { ret := -EFAULT, store := σ, log := [] }
  | some b =>
    match parse_cmd dev_get_by_name (kbuf_of b) command.zero with
    | none => none
    | some r =>
      if r.ret ≠ 0 then some { ret := r.ret, store := σ, log := r.log }
      else
        match exec_cmd σ r.cmd with
        | none => none
        | some σ' => some { ret := (b.length : Int), store := σ', log := r.log }

/-! ## An example registry and example stores -/

/-- A registry with the single device `eth0`, handle 0. -/
def eth0_registry (name : List Char) : Option Dev :=
  if name = "eth0".toList then some 0 else none

/-- A statistics record with every counter 0. -/
def net_device_stats.zero : net_device_stats :=
  ⟨0, 0, 0, 0, 0, 0, 0, 0, 0, 0, 0, 0, 0, 0, 0, 0, 0, 0, 0, 0, 0, 0, 0⟩

/-- A store in which every counter of every device is 0. -/
def Store.zero : Store := fun _ => net_device_stats.zero

/-! ## Vocabulary of the command language, as the specification words it -/

/-- The whitespace-delimited non-empty tokens of a line, in order.  `cur` holds
the characters of the token being read; a token ends at a whitespace
character or at the end of the line (the end of the list or a NUL). -/
def tokens_from : List Char → List Char → List (List Char)
  | [], cur => if cur = [] then [] else [cur]
  | c :: str, cur =>
    if c = NUL then (if cur = [] then [] else [cur])
    else if isspace c then
      (if cur = [] then tokens_from str [] else cur :: tokens_from str [])
    else tokens_from str (cur ++ [c])

/-- The whitespace-delimited non-empty tokens of a line. -/
def tokens (line : List Char) : List (List Char) :=
  tokens_from line []

/-- The tokens of a line that are followed by a whitespace character. -/
def terminated_tokens_from : List Char → List Char → List (List Char)
  | [], _ => []
  | c :: str, cur =>
    if c = NUL then []
    else if isspace c then
      (if cur = [] then terminated_tokens_from str [] else cur :: terminated_tokens_from str [])
    else terminated_tokens_from str (cur ++ [c])

/-- The tokens of a line that are followed by a whitespace character. -/
def terminated_tokens (line : List Char) : List (List Char) :=
  terminated_tokens_from line []

/-- The command builder run on a list of tokens from the state (`attr`, `cmd`):
each token advances `attr` by one and is resolved by `set_attr`; a failed
resolution or a fifth token stops it, the end of the tokens is the end of the
loop of `parse_cmd`. -/
def resolve_tokens (dev_get_by_name : List Char → Option Dev) :
    List (List Char) → Nat → command → Result
  | [], attr, cmd => parse_cmd_end attr cmd
  | t :: ts, attr, cmd =>
    let r := set_attr dev_get_by_name cmd t (attr + 1)
    if r.ret ≠ 0 then r
    else if attr + 1 > OP then return_error ERR_TOO_MUCH_ARGS r.cmd
    else resolve_tokens dev_get_by_name ts (attr + 1) r.cmd

/-- The direction vocabulary: the token is exactly `rx` or `tx`. -/
def is_direction (t : List Char) : Prop :=
  t = "rx".toList ∨ t = "tx".toList

/-- The field vocabulary with its context rule: six names under either
direction, `frame` and `multicast` under `rx`, `colls` and `carrier` under `tx`. -/
def legal_field (dir f : List Char) : Prop :=
  f ∈ ["bytes".toList, "packets".toList, "errs".toList, "drop".toList, "fifo".toList,
      "compressed".toList] ∨
  (dir = "rx".toList ∧ f ∈ ["frame".toList, "multicast".toList]) ∨
  (dir = "tx".toList ∧ f ∈ ["colls".toList, "carrier".toList])

/-- The operation vocabulary: the first character of the token is `=`, `+` or `-`. -/
def is_operation (t : List Char) : Prop :=
  t.head? = some '=' ∨ t.head? = some '+' ∨ t.head? = some '-'

/-- Every token of the list resolves successfully for its position: the first
names a registered device, the second is a direction, the third a field legal
for that direction, the fourth an operation. -/
def tokens_resolve (dev_get_by_name : List Char → Option Dev) (ts : List (List Char)) : Prop :=
  (∀ t ∈ ts.get? 0, (dev_get_by_name t).isSome) ∧
  (∀ t ∈ ts.get? 1, is_direction t) ∧
  (∀ dir ∈ ts.get? 1, ∀ f ∈ ts.get? 2, legal_field dir f) ∧
  (∀ t ∈ ts.get? 3, is_operation t)

/-- The enum value the field vocabulary assigns to a field name. -/
def field_value (t : List Char) : Option Nat :=
  if t = "bytes".toList then some BYTES
  else if t = "packets".toList then some PACKETS
  else if t = "errs".toList then some ERRS
  else if t = "drop".toList then some DROP
  else if t = "fifo".toList then some FIFO
  else if t = "frame".toList then some FRAME
  else if t = "compressed".toList then some COMPRESSED
  else if t = "multicast".toList then some MULTICAST
  else if t = "colls".toList then some COLLS
  else if t = "carrier".toList then some CARRIER
  else none

/-- The counter each legal (direction, field) pair of tokens targets. -/
def legal_targets : List (List Char × List Char × Slot) :=
  [ ("rx".toList, "bytes".toList, .rx_bytes), ("tx".toList, "bytes".toList, .tx_bytes),
    ("rx".toList, "packets".toList, .rx_packets), ("tx".toList, "packets".toList, .tx_packets),
    ("rx".toList, "errs".toList, .rx_errors), ("tx".toList, "errs".toList, .tx_errors),
    ("rx".toList, "drop".toList, .rx_dropped), ("tx".toList, "drop".toList, .tx_dropped),
    ("rx".toList, "fifo".toList, .rx_fifo_errors), ("tx".toList, "fifo".toList, .tx_fifo_errors),
    ("rx".toList, "compressed".toList, .rx_compressed),
    ("tx".toList, "compressed".toList, .tx_compressed),
    ("rx".toList, "frame".toList, .rx_frame_errors),
    ("rx".toList, "multicast".toList, .multicast),
    ("tx".toList, "colls".toList, .collisions),
    ("tx".toList, "carrier".toList, .tx_carrier_errors) ]

/-- The line `d dir f o<n>` terminated by a newline, `<n>` being the decimal
digits of `n`. -/
def command_line (d dir f : List Char) (o : Char) (n : Nat) : List Char :=
  d ++ ' ' :: (dir ++ ' ' :: (f ++ ' ' :: (o :: (Nat.toDigits 10 n ++ [Char.ofNat 10]))))

/-- A string can be a token: no NUL and no whitespace in it. -/
def token_chars (t : List Char) : Prop :=
  ∀ c ∈ t, c ≠ NUL ∧ isspace c = false

/-- The value of a digit string read without a width limit. -/
def decimal_value : List Char → Nat → Nat
  | [], r => r
  | c :: cs, r => decimal_value cs (r * 10 + (c.toNat - 48))

/-- The field names `set_attr` has to accept when the direction member holds
`rx_tx`: six names under either direction, `frame` and `multicast` under `RX`,
`colls` and `carrier` under `TX`. -/
def field_accepted (rx_tx : Nat) (t : List Char) : Prop :=
  t ∈ ["bytes".toList, "packets".toList, "errs".toList, "drop".toList, "fifo".toList,
      "compressed".toList] ∨
    (t ∈ ["frame".toList, "multicast".toList] ∧ rx_tx = RX) ∨
    (t ∈ ["colls".toList, "carrier".toList] ∧ rx_tx = TX)

/-- The enum value of a direction token. -/
def direction_value (t : List Char) : Nat :=
  if t = "rx".toList then RX else TX

instance (rx_tx : Nat) (t : List Char) : Decidable (field_accepted rx_tx t) := by
  unfold field_accepted; infer_instance

instance (t : List Char) : Decidable (is_direction t) := by
  unfold is_direction; infer_instance

instance (dir f : List Char) : Decidable (legal_field dir f) := by
  unfold legal_field; infer_instance

instance (t : List Char) : Decidable (is_operation t) := by
  unfold is_operation; infer_instance

instance (t : List Char) : Decidable (token_chars t) := by
  unfold token_chars; infer_instance

instance (dev_get_by_name : List Char → Option Dev) (ts : List (List Char)) :
    Decidable (tokens_resolve dev_get_by_name ts) := by
  unfold tokens_resolve; infer_instance

/-- A store whose device 0 has `rx_bytes = 5`. -/
def store_rx_bytes_5 : Store :=
  fun _ => { net_device_stats.zero with rx_bytes := 5 }

/-- The enum value of an operation token, selected by its first character. -/
def operation_value (t : List Char) : Nat :=
  if t.head? = some '=' then SET else if t.head? = some '+' then ADD else SUB

/-- The command four resolving tokens build: every member is overwritten once,
in the order device, direction, field, operation and amount. -/
def built_command (dev_get_by_name : List Char → Option Dev) (t1 t2 t3 t4 : List Char) :
    command :=
  { dev := dev_get_by_name t1, rx_tx := direction_value t2, field := (field_value t3).getD 0,
    operation := operation_value t4, amount := simple_strtoul t4.tail }

/-- The longest run of decimal digits at the start of a string. -/
def digit_run (s : List Char) : List Char :=
  s.takeWhile isdigit

/-- The accesses to the token buffer in the loop of `parse_cmd`, from the state
(`str + is`, `buf[0..ib)`, `attr`, `*cmd`): one pair (`is`, `ib`) for every
statement `buf[ib] = c` or `buf[ib] = '\0'`, `is` being the number of characters
consumed when it runs.  The reads of `buf` (`strlen`, and `set_attr` on a
non-empty token) stay at or below the terminator just written at `ib`. -/
def parse_cmd_buf_accesses (dev_get_by_name : List Char → Option Dev) :
    List Char → Nat → List Char → Nat → command → List (Nat × Nat)
  | [], _, _, _, _ => []
  | c :: str, is, buf, attr, cmd =>
    if c = NUL then []
    else if isspace c then
      (is + 1, buf.length) ::
        (if buf = [] then parse_cmd_buf_accesses dev_get_by_name str (is + 1) buf attr cmd
        else
          let r := set_attr dev_get_by_name cmd buf (attr + 1)
          if r.ret ≠ 0 then []
          else if attr + 1 > OP then []
          else parse_cmd_buf_accesses dev_get_by_name str (is + 1) [] (attr + 1) r.cmd)
    else
      (is + 1, buf.length) ::
        (if attr > OP then []
        else parse_cmd_buf_accesses dev_get_by_name str (is + 1) (buf ++ [c]) attr cmd)

/-- The token buffer suffices for the rest `str` of a line when `ib = n`: up to
the end of the string every `buf[ib]` the loop of `parse_cmd` can reach has
`ib < CMD_BUF_SIZE`. -/
def buf_fits : List Char → Nat → Prop
  | [], _ => True
  | c :: str, n =>
    if c = NUL then True
    else n < CMD_BUF_SIZE ∧ (if isspace c then buf_fits str 0 else buf_fits str (n + 1))

instance (str : List Char) (n : Nat) : Decidable (buf_fits str n) := by
  induction str generalizing n with
  | nil => unfold buf_fits; infer_instance
  | cons c str ih =>
    unfold buf_fits
    exact inferInstance

/-! ## Lemmas about the store and the slots -/

theorem get_set_same (s : net_device_stats) (p : Slot) (v : Nat) : (s.set p v).get p = v := by
  cases p <;> rfl

theorem get_set_other (s : net_device_stats) (p q : Slot) (v : Nat) (h : q ≠ p) :
    (s.set p v).get q = s.get q := by
  cases p <;> cases q <;> first | rfl | exact absurd rfl h

theorem update_same (σ : Store) (d : Dev) (s : net_device_stats) : (σ.update d s) d = s := by
  simp [Store.update]

theorem update_other (σ : Store) (d e : Dev) (s : net_device_stats) (h : e ≠ d) :
    (σ.update d s) e = σ e := by
  simp [Store.update, h]

/-! ## Lemmas about `error` -/

theorem error_fst_ne_zero (e : Nat) (he : e ≤ ERR_INVALID_OP) : (error e).1 ≠ 0 := by
  have h : e = 0 ∨ e = 1 ∨ e = 2 ∨ e = 3 ∨ e = 4 ∨ e = 5 := by
    simp only [ERR_INVALID_OP] at he; omega
  rcases h with rfl | rfl | rfl | rfl | rfl | rfl <;> decide

theorem return_error_ret_ne_zero (e : Nat) (he : e ≤ ERR_INVALID_OP) (cmd : command) :
    (return_error e cmd).ret ≠ 0 :=
  error_fst_ne_zero e he

/-! ## Lemmas about the loop of `parse_cmd` -/

theorem isspace_ne_NUL (c : Char) (h : isspace c = true) : c ≠ NUL := by
  intro hc
  rw [hc] at h
  exact absurd h (by decide)

/-- Characters of a token are appended to `buf` one by one. -/
theorem parse_cmd_loop_append (lk : List Char → Option Dev) (t : List Char) :
    ∀ (str buf : List Char) (attr : Nat) (cmd : command), token_chars t →
      buf.length + t.length ≤ CMD_BUF_SIZE → attr ≤ OP →
      parse_cmd_loop lk (t ++ str) buf attr cmd = parse_cmd_loop lk str (buf ++ t) attr cmd := by
  induction t with
  | nil => intro str buf attr cmd _ _ _; simp
  | cons c t ih =>
    intro str buf attr cmd ht hlen hattr
    have hc := ht c (List.mem_cons_self c t)
    have ht2 : token_chars t := fun x hx => ht x (List.mem_cons_of_mem c hx)
    simp only [List.length_cons] at hlen
    have h1 : ¬ CMD_BUF_SIZE ≤ buf.length := by omega
    have h2 : ¬ attr > OP := by omega
    rw [List.cons_append, parse_cmd_loop, if_neg hc.1]
    simp only [hc.2, Bool.false_eq_true, if_false, if_neg h1, if_neg h2]
    rw [ih str (buf ++ [c]) attr cmd ht2 (by simp only [List.length_append, List.length_singleton]; omega) hattr]
    simp

/-- A whitespace character after a non-empty `buf` resolves `buf` as the next attribute. -/
theorem parse_cmd_loop_space (lk : List Char → Option Dev) (w : Char) (str buf : List Char)
    (attr : Nat) (cmd : command) (hw : isspace w = true) (hbuf : buf ≠ [])
    (hlen : buf.length < CMD_BUF_SIZE) :
    parse_cmd_loop lk (w :: str) buf attr cmd =
      if (set_attr lk cmd buf (attr + 1)).ret ≠ 0 then some (set_attr lk cmd buf (attr + 1))
      else if attr + 1 > OP then
        some (return_error ERR_TOO_MUCH_ARGS (set_attr lk cmd buf (attr + 1)).cmd)
      else parse_cmd_loop lk str [] (attr + 1) (set_attr lk cmd buf (attr + 1)).cmd := by
  have h1 : ¬ CMD_BUF_SIZE ≤ buf.length := by omega
  rw [parse_cmd_loop, if_neg (isspace_ne_NUL w hw)]
  simp only [hw, if_true, if_neg h1, if_neg hbuf]

/-- A token followed by a whitespace character, read from an empty `buf`. -/
theorem parse_cmd_loop_token (lk : List Char → Option Dev) (t : List Char) (w : Char)
    (str : List Char) (attr : Nat) (cmd : command) (ht : token_chars t) (hne : t ≠ [])
    (hlen : t.length < CMD_BUF_SIZE) (hw : isspace w = true) (hattr : attr ≤ OP) :
    parse_cmd_loop lk (t ++ w :: str) [] attr cmd =
      if (set_attr lk cmd t (attr + 1)).ret ≠ 0 then some (set_attr lk cmd t (attr + 1))
      else if attr + 1 > OP then
        some (return_error ERR_TOO_MUCH_ARGS (set_attr lk cmd t (attr + 1)).cmd)
      else parse_cmd_loop lk str [] (attr + 1) (set_attr lk cmd t (attr + 1)).cmd := by
  rw [parse_cmd_loop_append lk t (w :: str) [] attr cmd ht
    (by simp only [List.length_nil]; omega) hattr]
  simp only [List.nil_append]
  exact parse_cmd_loop_space lk w str t attr cmd hw hne hlen

/-- The loop of `parse_cmd` is the command builder run on the tokens that are
followed by whitespace, as long as the line fits the token buffer. -/
theorem parse_cmd_loop_eq_resolve (lk : List Char → Option Dev) (str : List Char) :
    ∀ (buf : List Char) (attr : Nat) (cmd : command),
      buf.length + str.length < CMD_BUF_SIZE → attr ≤ OP →
      parse_cmd_loop lk str buf attr cmd =
        some (resolve_tokens lk (terminated_tokens_from str buf) attr cmd) := by
  induction str with
  | nil => intro buf attr cmd _ _; simp [parse_cmd_loop, terminated_tokens_from, resolve_tokens]
  | cons c str ih =>
    intro buf attr cmd hlen hattr
    simp only [List.length_cons] at hlen
    have h1 : ¬ CMD_BUF_SIZE ≤ buf.length := by omega
    have h2 : ¬ attr > OP := by omega
    rw [parse_cmd_loop, terminated_tokens_from]
    by_cases hc : c = NUL
    · simp only [if_pos hc, resolve_tokens]
    · simp only [if_neg hc]
      by_cases hs : isspace c = true
      · simp only [hs, if_true, if_neg h1]
        by_cases hb : buf = []
        · simp only [if_pos hb]
          subst hb
          exact ih [] attr cmd (by simp only [List.length_nil]; omega) hattr
        · simp only [if_neg hb, resolve_tokens]
          by_cases hr : (set_attr lk cmd buf (attr + 1)).ret ≠ 0
          · simp only [if_pos hr]
          · simp only [if_neg hr]
            by_cases ha : attr + 1 > OP
            · simp only [if_pos ha]
            · simp only [if_neg ha]
              exact ih [] (attr + 1) _ (by simp only [List.length_nil]; omega) (by omega)
      · simp only [hs, Bool.false_eq_true, if_false, if_neg h1, if_neg h2]
        exact ih (buf ++ [c]) attr cmd
          (by simp only [List.length_append, List.length_singleton]; omega) hattr

/-- The function `parse_cmd` on a line of at most 63 bytes. -/
theorem parse_cmd_eq_resolve (lk : List Char → Option Dev) (str : List Char) (cmd : command)
    (hlen : str.length < CMD_BUF_SIZE) :
    parse_cmd lk str cmd = some (resolve_tokens lk (terminated_tokens str) NONE cmd) :=
  parse_cmd_loop_eq_resolve lk str [] NONE cmd (by simpa using hlen) (by decide)

/-- The truncating copy is the identity on a line of at most 63 bytes. -/
theorem kbuf_of_short (b : List Char) (h : b.length < CMD_BUF_SIZE) : kbuf_of b = b := by
  unfold kbuf_of
  have h1 : ¬ b.length > CMD_BUF_SIZE - 1 := by simp only [CMD_BUF_SIZE] at h ⊢; omega
  rw [if_neg h1]
  exact List.take_length b

/-- The truncating copy leaves at most 63 bytes. -/
theorem kbuf_of_length (b : List Char) : (kbuf_of b).length < CMD_BUF_SIZE := by
  unfold kbuf_of
  simp only [CMD_BUF_SIZE]
  split_ifs with h1
  · simp only [List.length_take]; omega
  · simp only [List.length_take]; omega

/-! ## Lemmas about `set_attr` -/

theorem set_attr_DEV_eq (lk : List Char → Option Dev) (cmd : command) (t : List Char) :
    set_attr lk cmd t DEV =
      match lk t with
      | none => return_error ERR_NO_SUCH_DEVICE { cmd with dev := none }
      | some d => return_ok { cmd with dev := some d } := by
  unfold set_attr
  rw [if_neg (by decide : ¬ DEV = NONE), if_pos (rfl : DEV = DEV)]

theorem set_attr_RX_TX_eq (lk : List Char → Option Dev) (cmd : command) (t : List Char) :
    set_attr lk cmd t RX_TX =
      if t = "rx".toList then return_ok { cmd with rx_tx := RX }
      else if t = "tx".toList then return_ok { cmd with rx_tx := TX }
      else return_error ERR_INVALID_RX_TX cmd := by
  unfold set_attr
  rw [if_neg (by decide : ¬ RX_TX = NONE), if_neg (by decide : ¬ RX_TX = DEV),
    if_pos (rfl : RX_TX = RX_TX)]

theorem set_attr_FIELD_eq (lk : List Char → Option Dev) (cmd : command) (t : List Char) :
    set_attr lk cmd t FIELD =
      if "bytes".toList = t then return_ok { cmd with field := BYTES }
      else if "packets".toList = t then return_ok { cmd with field := PACKETS }
      else if "errs".toList = t then return_ok { cmd with field := ERRS }
      else if "drop".toList = t then return_ok { cmd with field := DROP }
      else if "fifo".toList = t then return_ok { cmd with field := FIFO }
      else if "frame".toList = t ∧ cmd.rx_tx = RX then return_ok { cmd with field := FRAME }
      else if "compressed".toList = t then return_ok { cmd with field := COMPRESSED }
      else if "multicast".toList = t ∧ cmd.rx_tx = RX then
        return_ok { cmd with field := MULTICAST }
      else if "colls".toList = t ∧ cmd.rx_tx = TX then return_ok { cmd with field := COLLS }
      else if "carrier".toList = t ∧ cmd.rx_tx = TX then
        return_ok { cmd with field := CARRIER }
      else return_error ERR_INVALID_FIELD cmd := by
  unfold set_attr
  rw [if_neg (by decide : ¬ FIELD = NONE), if_neg (by decide : ¬ FIELD = DEV),
    if_neg (by decide : ¬ FIELD = RX_TX), if_pos (rfl : FIELD = FIELD)]

theorem set_attr_OP_eq (lk : List Char → Option Dev) (cmd : command) (t : List Char) :
    set_attr lk cmd t OP =
      if t.headD NUL = '=' then
        return_ok { cmd with operation := SET, amount := simple_strtoul t.tail }
      else if t.headD NUL = '+' then
        return_ok { cmd with operation := ADD, amount := simple_strtoul t.tail }
      else if t.headD NUL = '-' then
        return_ok { cmd with operation := SUB, amount := simple_strtoul t.tail }
      else return_error ERR_INVALID_OP cmd := by
  unfold set_attr
  rw [if_neg (by decide : ¬ OP = NONE), if_neg (by decide : ¬ OP = DEV),
    if_neg (by decide : ¬ OP = RX_TX), if_neg (by decide : ¬ OP = FIELD),
    if_pos (rfl : OP = OP)]

/-- The field case of `set_attr` either accepts the token with the enum value
of its name, or rejects it with `ERR_INVALID_FIELD` and leaves the command alone. -/
theorem set_attr_FIELD_cases (lk : List Char → Option Dev) (cmd : command) (t : List Char) :
    (field_accepted cmd.rx_tx t ∧ ∃ f, field_value t = some f ∧
        set_attr lk cmd t FIELD = return_ok { cmd with field := f }) ∨
    (¬ field_accepted cmd.rx_tx t ∧
        set_attr lk cmd t FIELD = return_error ERR_INVALID_FIELD cmd) := by
  rw [set_attr_FIELD_eq]
  by_cases h1 : "bytes".toList = t
  · rw [if_pos h1]; subst h1; exact Or.inl ⟨Or.inl (by decide), _, by decide, rfl⟩
  rw [if_neg h1]
  by_cases h2 : "packets".toList = t
  · rw [if_pos h2]; subst h2; exact Or.inl ⟨Or.inl (by decide), _, by decide, rfl⟩
  rw [if_neg h2]
  by_cases h3 : "errs".toList = t
  · rw [if_pos h3]; subst h3; exact Or.inl ⟨Or.inl (by decide), _, by decide, rfl⟩
  rw [if_neg h3]
  by_cases h4 : "drop".toList = t
  · rw [if_pos h4]; subst h4; exact Or.inl ⟨Or.inl (by decide), _, by decide, rfl⟩
  rw [if_neg h4]
  by_cases h5 : "fifo".toList = t
  · rw [if_pos h5]; subst h5; exact Or.inl ⟨Or.inl (by decide), _, by decide, rfl⟩
  rw [if_neg h5]
  by_cases h6 : "frame".toList = t ∧ cmd.rx_tx = RX
  · rw [if_pos h6]; obtain ⟨h, hr⟩ := h6; subst h
    exact Or.inl ⟨Or.inr (Or.inl ⟨by decide, hr⟩), _, by decide, rfl⟩
  rw [if_neg h6]
  by_cases h7 : "compressed".toList = t
  · rw [if_pos h7]; subst h7; exact Or.inl ⟨Or.inl (by decide), _, by decide, rfl⟩
  rw [if_neg h7]
  by_cases h8 : "multicast".toList = t ∧ cmd.rx_tx = RX
  · rw [if_pos h8]; obtain ⟨h, hr⟩ := h8; subst h
    exact Or.inl ⟨Or.inr (Or.inl ⟨by decide, hr⟩), _, by decide, rfl⟩
  rw [if_neg h8]
  by_cases h9 : "colls".toList = t ∧ cmd.rx_tx = TX
  · rw [if_pos h9]; obtain ⟨h, hr⟩ := h9; subst h
    exact Or.inl ⟨Or.inr (Or.inr ⟨by decide, hr⟩), _, by decide, rfl⟩
  rw [if_neg h9]
  by_cases h10 : "carrier".toList = t ∧ cmd.rx_tx = TX
  · rw [if_pos h10]; obtain ⟨h, hr⟩ := h10; subst h
    exact Or.inl ⟨Or.inr (Or.inr ⟨by decide, hr⟩), _, by decide, rfl⟩
  rw [if_neg h10]
  refine Or.inr ⟨?_, rfl⟩
  unfold field_accepted
  simp only [List.mem_cons, List.mem_singleton, List.not_mem_nil, or_false]
  rintro ((h | h | h | h | h | h) | ⟨h | h, hr⟩ | ⟨h | h, hr⟩)
  · exact h1 h.symm
  · exact h2 h.symm
  · exact h3 h.symm
  · exact h4 h.symm
  · exact h5 h.symm
  · exact h7 h.symm
  · exact h6 ⟨h.symm, hr⟩
  · exact h8 ⟨h.symm, hr⟩
  · exact h9 ⟨h.symm, hr⟩
  · exact h10 ⟨h.symm, hr⟩

/-- A result of `set_attr` is either a plain success or one `return error(...)`. -/
theorem set_attr_result (lk : List Char → Option Dev) (cmd : command) (t : List Char)
    (attr : Nat) :
    (∃ c, set_attr lk cmd t attr = return_ok c) ∨
    (∃ e c, e ≤ ERR_INVALID_OP ∧ set_attr lk cmd t attr = return_error e c) := by
  have hc : attr = NONE ∨ attr = DEV ∨ attr = RX_TX ∨ attr = FIELD ∨ attr = OP ∨ OP < attr := by
    simp only [NONE, DEV, RX_TX, FIELD, OP]; omega
  rcases hc with h | h | h | h | h | h
  · subst h; exact Or.inl ⟨cmd, rfl⟩
  · subst h; rw [set_attr_DEV_eq]
    cases lk t with
    | none => exact Or.inr ⟨_, _, by decide, rfl⟩
    | some d => exact Or.inl ⟨_, rfl⟩
  · subst h; rw [set_attr_RX_TX_eq]
    by_cases h1 : t = "rx".toList
    · rw [if_pos h1]; exact Or.inl ⟨_, rfl⟩
    rw [if_neg h1]
    by_cases h2 : t = "tx".toList
    · rw [if_pos h2]; exact Or.inl ⟨_, rfl⟩
    rw [if_neg h2]; exact Or.inr ⟨_, _, by decide, rfl⟩
  · subst h
    rcases set_attr_FIELD_cases lk cmd t with ⟨_, f, _, hf⟩ | ⟨_, hf⟩
    · exact Or.inl ⟨_, hf⟩
    · exact Or.inr ⟨_, _, by decide, hf⟩
  · subst h; rw [set_attr_OP_eq]
    by_cases h1 : t.headD NUL = '='
    · rw [if_pos h1]; exact Or.inl ⟨_, rfl⟩
    rw [if_neg h1]
    by_cases h2 : t.headD NUL = '+'
    · rw [if_pos h2]; exact Or.inl ⟨_, rfl⟩
    rw [if_neg h2]
    by_cases h3 : t.headD NUL = '-'
    · rw [if_pos h3]; exact Or.inl ⟨_, rfl⟩
    rw [if_neg h3]; exact Or.inr ⟨_, _, by decide, rfl⟩
  · simp only [OP] at h
    unfold set_attr
    rw [if_neg (by simp only [NONE]; omega), if_neg (by simp only [DEV]; omega),
      if_neg (by simp only [RX_TX]; omega), if_neg (by simp only [FIELD]; omega),
      if_neg (by simp only [OP]; omega)]
    exact Or.inl ⟨_, rfl⟩

/-! ## Lemmas about the command builder -/

theorem resolve_tokens_cons_ok (lk : List Char → Option Dev) (t : List Char)
    (ts : List (List Char)) (attr : Nat) (cmd c : command)
    (h : set_attr lk cmd t (attr + 1) = return_ok c) (ha : attr + 1 ≤ OP) :
    resolve_tokens lk (t :: ts) attr cmd = resolve_tokens lk ts (attr + 1) c := by
  rw [resolve_tokens]
  simp only [h]
  have hz : ¬ (return_ok c).ret ≠ 0 := not_not.mpr rfl
  have hb : ¬ attr + 1 > OP := by omega
  rw [if_neg hz, if_neg hb]
  rfl

theorem resolve_tokens_cons_error (lk : List Char → Option Dev) (t : List Char)
    (ts : List (List Char)) (attr e : Nat) (cmd c : command)
    (h : set_attr lk cmd t (attr + 1) = return_error e c) (he : e ≤ ERR_INVALID_OP) :
    resolve_tokens lk (t :: ts) attr cmd = return_error e c := by
  rw [resolve_tokens]
  simp only [h]
  rw [if_pos (return_error_ret_ne_zero e he c)]

theorem resolve_tokens_cons_fifth (lk : List Char → Option Dev) (t : List Char)
    (ts : List (List Char)) (attr : Nat) (cmd c : command)
    (h : set_attr lk cmd t (attr + 1) = return_ok c) (ha : OP < attr + 1) :
    resolve_tokens lk (t :: ts) attr cmd = return_error ERR_TOO_MUCH_ARGS c := by
  rw [resolve_tokens]
  simp only [h]
  have hz : ¬ (return_ok c).ret ≠ 0 := not_not.mpr rfl
  rw [if_neg hz, if_pos ha]
  rfl

theorem tokens_resolve_one (lk : List Char → Option Dev) (t1 : List Char) :
    tokens_resolve lk [t1] ↔ (lk t1).isSome := by
  simp [tokens_resolve]

theorem tokens_resolve_two (lk : List Char → Option Dev) (t1 t2 : List Char) :
    tokens_resolve lk [t1, t2] ↔ (lk t1).isSome ∧ is_direction t2 := by
  simp [tokens_resolve]

theorem tokens_resolve_three (lk : List Char → Option Dev) (t1 t2 t3 : List Char) :
    tokens_resolve lk [t1, t2, t3] ↔ (lk t1).isSome ∧ is_direction t2 ∧ legal_field t2 t3 := by
  simp [tokens_resolve]

theorem tokens_resolve_four (lk : List Char → Option Dev) (t1 t2 t3 t4 : List Char) :
    tokens_resolve lk [t1, t2, t3, t4] ↔
      (lk t1).isSome ∧ is_direction t2 ∧ legal_field t2 t3 ∧ is_operation t4 := by
  simp [tokens_resolve]

theorem set_attr_RX_TX_ok (lk : List Char → Option Dev) (cmd : command) (t : List Char)
    (h : is_direction t) :
    set_attr lk cmd t RX_TX = return_ok { cmd with rx_tx := direction_value t } := by
  rw [set_attr_RX_TX_eq]
  rcases h with h | h
  · subst h; rfl
  · subst h; rfl

theorem set_attr_RX_TX_error (lk : List Char → Option Dev) (cmd : command) (t : List Char)
    (h : ¬ is_direction t) :
    set_attr lk cmd t RX_TX = return_error ERR_INVALID_RX_TX cmd := by
  rw [set_attr_RX_TX_eq, if_neg (fun h1 => h (Or.inl h1)), if_neg (fun h2 => h (Or.inr h2))]

theorem legal_field_iff_accepted (dir f : List Char) (h : is_direction dir) :
    legal_field dir f ↔ field_accepted (direction_value dir) f := by
  unfold legal_field field_accepted
  rcases h with h | h
  · subst h
    have e1 : direction_value "rx".toList = RX := by decide
    have e2 : ("rx".toList = "rx".toList) = True := eq_self _
    have e3 : ("rx".toList = "tx".toList) = False := eq_false (by decide)
    have e4 : (RX = TX) = False := eq_false (by decide)
    rw [e1, e2, e3, e4]
    simp only [true_and, false_and, and_true, and_false]
  · subst h
    have e1 : direction_value "tx".toList = TX := by decide
    have e2 : ("tx".toList = "tx".toList) = True := eq_self _
    have e3 : ("tx".toList = "rx".toList) = False := eq_false (by decide)
    have e4 : (TX = RX) = False := eq_false (by decide)
    rw [e1, e2, e3, e4]
    simp only [true_and, false_and, and_true, and_false]

theorem set_attr_OP_ok (lk : List Char → Option Dev) (cmd : command) (t : List Char)
    (h : is_operation t) :
    set_attr lk cmd t OP =
      return_ok { cmd with operation := operation_value t, amount := simple_strtoul t.tail } := by
  have hd : ∀ c : Char, t.head? = some c → t.headD NUL = c := by
    intro c h
    cases t with
    | nil => simp at h
    | cons x xs => simpa using h
  rw [set_attr_OP_eq]
  unfold operation_value
  rcases h with h | h | h
  · rw [if_pos (hd _ h), if_pos h]
  · rw [hd _ h, h, if_neg (by decide), if_pos rfl, if_neg (by decide), if_pos rfl]
  · rw [hd _ h, h, if_neg (by decide), if_neg (by decide), if_pos rfl, if_neg (by decide),
      if_neg (by decide)]

theorem set_attr_OP_error (lk : List Char → Option Dev) (cmd : command) (t : List Char)
    (h : ¬ is_operation t) :
    set_attr lk cmd t OP = return_error ERR_INVALID_OP cmd := by
  have hh : ∀ c : Char, c ≠ NUL → t.headD NUL = c → t.head? = some c := by
    intro c hc h
    cases t with
    | nil => exact absurd h.symm hc
    | cons x xs => simpa using h
  unfold is_operation at h
  rw [set_attr_OP_eq,
    if_neg (fun h1 => h (Or.inl (hh _ (by decide) h1))),
    if_neg (fun h1 => h (Or.inr (Or.inl (hh _ (by decide) h1)))),
    if_neg (fun h1 => h (Or.inr (Or.inr (hh _ (by decide) h1))))]

/-- Four tokens either all resolve, and the builder returns 0 with the command
they spell, or one of them does not, and the builder returns an error. -/
theorem resolve_tokens_four (lk : List Char → Option Dev) (t1 t2 t3 t4 : List Char)
    (cmd : command) :
    (tokens_resolve lk [t1, t2, t3, t4] ∧
      resolve_tokens lk [t1, t2, t3, t4] NONE cmd = return_ok (built_command lk t1 t2 t3 t4)) ∨
    (¬ tokens_resolve lk [t1, t2, t3, t4] ∧
      ∃ e c, e ≤ ERR_INVALID_OP ∧
        resolve_tokens lk [t1, t2, t3, t4] NONE cmd = return_error e c) := by
  rw [tokens_resolve_four]
  cases h1 : lk t1 with
  | none =>
    refine Or.inr ⟨fun h => by simp at h, _, _, ?_, resolve_tokens_cons_error lk _ _ _ _ _ _
      (by rw [show NONE + 1 = DEV from rfl, set_attr_DEV_eq, h1]) (by decide)⟩
    decide
  | some d =>
    have s1 : set_attr lk cmd t1 (NONE + 1) = return_ok { cmd with dev := some d } := by
      rw [show NONE + 1 = DEV from rfl, set_attr_DEV_eq, h1]
    rw [resolve_tokens_cons_ok lk _ _ _ _ _ s1 (by decide)]
    by_cases h2 : is_direction t2
    · have s2 := set_attr_RX_TX_ok lk { cmd with dev := some d } t2 h2
      rw [resolve_tokens_cons_ok lk _ _ _ _ _ s2 (by decide)]
      rcases set_attr_FIELD_cases lk
          { { cmd with dev := some d } with rx_tx := direction_value t2 } t3 with
        ⟨h3, f, hf, s3⟩ | ⟨h3, s3⟩
      · rw [resolve_tokens_cons_ok lk _ _ _ _ _ s3 (by decide)]
        by_cases h4 : is_operation t4
        · have s4 := set_attr_OP_ok lk
            { { { cmd with dev := some d } with rx_tx := direction_value t2 } with field := f }
            t4 h4
          rw [resolve_tokens_cons_ok lk _ _ _ _ _ s4 (by decide)]
          refine Or.inl ⟨⟨rfl, h2, (legal_field_iff_accepted t2 t3 h2).mpr h3, h4⟩, ?_⟩
          rw [resolve_tokens]
          unfold built_command
          rw [hf, h1]
          rfl
        · have s4 := set_attr_OP_error lk
            { { { cmd with dev := some d } with rx_tx := direction_value t2 } with field := f }
            t4 h4
          exact Or.inr ⟨fun h => h4 h.2.2.2, _, _, by decide,
            resolve_tokens_cons_error lk _ _ _ _ _ _ s4 (by decide)⟩
      · exact Or.inr ⟨fun h => h3 ((legal_field_iff_accepted t2 t3 h2).mp h.2.2.1), _, _,
          by decide, resolve_tokens_cons_error lk _ _ _ _ _ _ s3 (by decide)⟩
    · have s2 := set_attr_RX_TX_error lk { cmd with dev := some d } t2 h2
      exact Or.inr ⟨fun h => h2 h.2.1, _, _, by decide,
        resolve_tokens_cons_error lk _ _ _ _ _ _ s2 (by decide)⟩


/-! ## Lemmas about decimal digits -/

theorem digitChar_isdigit (m : Nat) (h : m < 10) :
    isdigit (Nat.digitChar m) = true ∧ (Nat.digitChar m).toNat - 48 = m := by
  interval_cases m <;> decide

theorem isdigit_token_char (c : Char) (h : isdigit c = true) : c ≠ NUL ∧ isspace c = false := by
  unfold isdigit at h
  simp only [Bool.and_eq_true, decide_eq_true_eq] at h
  constructor
  · intro hc
    rw [hc] at h
    exact absurd h.1 (by decide)
  · unfold isspace
    simp only [Bool.or_eq_false_iff, Bool.and_eq_false_iff, decide_eq_false_iff_not,
      beq_eq_false_iff_ne, ne_eq]
    omega

/-- With enough fuel, base-10 `Nat.toDigitsCore` puts a run of decimal digits in
front of what it was given, and the run reads as `n`. -/
theorem toDigitsCore_spec :
    ∀ (k n : Nat) (tl : List Char), n < k →
      ∃ run, run ++ tl = Nat.toDigitsCore 10 k n tl ∧
        (∀ r, decimal_value run r = r * 10 ^ run.length + n) ∧
        (∀ c ∈ run, isdigit c = true) := by
  intro k
  induction k with
  | zero => intro n tl h; omega
  | succ k ih =>
    intro n tl hn
    have hm := digitChar_isdigit (n % 10) (Nat.mod_lt n (by decide))
    have happ : ∀ (xs ys : List Char) (q : Nat),
        decimal_value (xs ++ ys) q = decimal_value ys (decimal_value xs q) := by
      intro xs
      induction xs with
      | nil => intro ys q; rfl
      | cons x xs ihx => intro ys q; exact ihx ys _
    simp only [Nat.toDigitsCore]
    by_cases h0 : n / 10 = 0
    · rw [if_pos h0]
      refine ⟨[Nat.digitChar (n % 10)], rfl, ?_, ?_⟩
      · intro r
        simp only [decimal_value, hm.2, List.length_singleton, pow_one]
        omega
      · intro c hc
        rw [List.mem_singleton.mp hc]; exact hm.1
    · rw [if_neg h0]
      obtain ⟨run, h1, h3, h2⟩ := ih (n / 10) (Nat.digitChar (n % 10) :: tl) (by omega)
      refine ⟨run ++ [Nat.digitChar (n % 10)], by rw [← h1, List.append_assoc]; rfl, ?_, ?_⟩
      · intro r
        rw [happ, h3 r]
        simp only [decimal_value, hm.2, List.length_append, List.length_singleton, pow_succ]
        have := Nat.div_add_mod n 10
        nlinarith [this]
      · intro c hc
        rcases List.mem_append.mp hc with hc | hc
        · exact h2 c hc
        · rw [List.mem_singleton.mp hc]; exact hm.1

theorem simple_strtoul_loop_eq (ds : List Char) :
    ∀ r : Nat, (∀ c ∈ ds, isdigit c = true) →
      simple_strtoul_loop ds (r % ULONG_MOD) = decimal_value ds r % ULONG_MOD := by
  induction ds with
  | nil => intro r _; rfl
  | cons c cs ih =>
    intro r h
    have hc := h c (List.mem_cons_self c cs)
    rw [simple_strtoul_loop, if_pos hc, decimal_value,
      ← ih (r * 10 + (c.toNat - 48)) (fun x hx => h x (List.mem_cons_of_mem c hx))]
    congr 1
    simp only [ULONG_MOD]
    omega

/-- Reading back the decimal digits of a 64-bit number gives the number. -/
theorem simple_strtoul_toDigits (n : Nat) (hn : n < 2 ^ 64) :
    simple_strtoul (Nat.toDigits 10 n) = n ∧ (∀ c ∈ Nat.toDigits 10 n, isdigit c = true) := by
  obtain ⟨ds, h1, h3, h2⟩ := toDigitsCore_spec (n + 1) n [] (by omega)
  rw [List.append_nil] at h1
  unfold Nat.toDigits
  rw [← h1]
  refine ⟨?_, h2⟩
  unfold simple_strtoul
  have := simple_strtoul_loop_eq ds 0 h2
  rw [Nat.zero_mod] at this
  rw [this, h3 0]
  simp only [Nat.zero_mul, Nat.zero_add, ULONG_MOD]
  exact Nat.mod_eq_of_lt hn


theorem terminated_tokens_from_append (t : List Char) :
    ∀ (str cur : List Char), token_chars t →
      terminated_tokens_from (t ++ str) cur = terminated_tokens_from str (cur ++ t) := by
  induction t with
  | nil => intro str cur _; simp
  | cons c t ih =>
    intro str cur ht
    have hc := ht c (List.mem_cons_self c t)
    rw [List.cons_append, terminated_tokens_from, if_neg hc.1]
    simp only [hc.2, Bool.false_eq_true, if_false]
    rw [ih str (cur ++ [c]) (fun x hx => ht x (List.mem_cons_of_mem c hx))]
    simp

/-- A non-empty token followed by a whitespace character is the first terminated token. -/
theorem terminated_tokens_from_token (t : List Char) (w : Char) (str : List Char)
    (ht : token_chars t) (hne : t ≠ []) (hw : isspace w = true) :
    terminated_tokens_from (t ++ w :: str) [] = t :: terminated_tokens_from str [] := by
  rw [terminated_tokens_from_append t (w :: str) [] ht, List.nil_append, terminated_tokens_from,
    if_neg (isspace_ne_NUL w hw), if_pos hw, if_neg hne]

/-- What the legal (direction, field) pairs are to the code: tokens that
resolve, and a field switch that selects the target counter. -/
theorem legal_targets_spec (dir f : List Char) (p : Slot) (h : (dir, f, p) ∈ legal_targets) :
    token_chars dir ∧ dir ≠ [] ∧ token_chars f ∧ f ≠ [] ∧ is_direction dir ∧ legal_field dir f ∧
    ∀ cmd : command, cmd.rx_tx = direction_value dir → cmd.field = (field_value f).getD 0 →
      exec_cmd_pval cmd = some p := by
  unfold legal_targets at h
  simp only [List.mem_cons, Prod.mk.injEq, List.mem_singleton, List.not_mem_nil, or_false] at h
  rcases h with h | h | h | h | h | h | h | h | h | h | h | h | h | h | h | h
  all_goals
    obtain ⟨h1, h2, h3⟩ := h
    subst h1 h2 h3
    refine ⟨by decide, by decide, by decide, by decide, by decide, by decide, ?_⟩
    intro cmd hr hf
    unfold exec_cmd_pval
    rw [hr, hf]
    rfl

theorem parse_cmd_end_result (attr : Nat) (cmd : command) :
    (attr = OP ∧ parse_cmd_end attr cmd = return_ok cmd) ∨
    (attr ≠ OP ∧ parse_cmd_end attr cmd = return_error ERR_NOT_ENOUGH_ARGS cmd) := by
  unfold parse_cmd_end
  by_cases h : attr = OP
  · exact Or.inl ⟨h, by rw [if_neg (not_not.mpr h)]⟩
  · exact Or.inr ⟨h, by rw [if_pos h]⟩

/-- The builder returns 0 or exactly one `return error(...)`. -/
theorem resolve_tokens_result (lk : List Char → Option Dev) (ts : List (List Char)) :
    ∀ (attr : Nat) (cmd : command),
      (∃ c, resolve_tokens lk ts attr cmd = return_ok c) ∨
      (∃ e c, e ≤ ERR_INVALID_OP ∧ resolve_tokens lk ts attr cmd = return_error e c) := by
  induction ts with
  | nil =>
    intro attr cmd
    rw [resolve_tokens]
    rcases parse_cmd_end_result attr cmd with ⟨_, h⟩ | ⟨_, h⟩
    · exact Or.inl ⟨_, h⟩
    · exact Or.inr ⟨_, _, by decide, h⟩
  | cons t ts ih =>
    intro attr cmd
    rcases set_attr_result lk cmd t (attr + 1) with ⟨c, h⟩ | ⟨e, c, he, h⟩
    · by_cases ha : attr + 1 ≤ OP
      · rw [resolve_tokens_cons_ok lk t ts attr cmd c h ha]
        exact ih (attr + 1) c
      · rw [resolve_tokens_cons_fifth lk t ts attr cmd c h (by omega)]
        exact Or.inr ⟨_, _, by decide, rfl⟩
    · rw [resolve_tokens_cons_error lk t ts attr e cmd c h he]
      exact Or.inr ⟨_, _, he, rfl⟩

/-- The builder returns 0 only after it has advanced `attr` to `OP`. -/
theorem resolve_tokens_ok_length (lk : List Char → Option Dev) (ts : List (List Char)) :
    ∀ (attr : Nat) (cmd : command),
      (resolve_tokens lk ts attr cmd).ret = 0 → attr + ts.length = OP := by
  induction ts with
  | nil =>
    intro attr cmd h
    rw [resolve_tokens] at h
    rcases parse_cmd_end_result attr cmd with ⟨h1, _⟩ | ⟨_, h2⟩
    · simpa using h1
    · rw [h2] at h
      exact absurd h (return_error_ret_ne_zero _ (by decide) _)
  | cons t ts ih =>
    intro attr cmd h
    rcases set_attr_result lk cmd t (attr + 1) with ⟨c, hs⟩ | ⟨e, c, he, hs⟩
    · by_cases ha : attr + 1 ≤ OP
      · rw [resolve_tokens_cons_ok lk t ts attr cmd c hs ha] at h
        have := ih (attr + 1) c h
        simp only [List.length_cons]
        omega
      · rw [resolve_tokens_cons_fifth lk t ts attr cmd c hs (by omega)] at h
        exact absurd h (return_error_ret_ne_zero _ (by decide) _)
    · rw [resolve_tokens_cons_error lk t ts attr e cmd c hs he] at h
      exact absurd h (return_error_ret_ne_zero _ he _)

/-- The builder returns 0 exactly on four tokens that all resolve. -/
theorem resolve_tokens_ok (lk : List Char → Option Dev) (ts : List (List Char))
    (cmd : command) (h : (resolve_tokens lk ts NONE cmd).ret = 0) :
    ∃ t1 t2 t3 t4, ts = [t1, t2, t3, t4] ∧ tokens_resolve lk [t1, t2, t3, t4] ∧
      resolve_tokens lk ts NONE cmd = return_ok (built_command lk t1 t2 t3 t4) := by
  have hl := resolve_tokens_ok_length lk ts NONE cmd h
  simp only [NONE, OP, Nat.zero_add] at hl
  match ts, hl with
  | [t1, t2, t3, t4], _ =>
    rcases resolve_tokens_four lk t1 t2 t3 t4 cmd with ⟨hv, hr⟩ | ⟨_, e, c, he, hr⟩
    · exact ⟨t1, t2, t3, t4, rfl, hv, hr⟩
    · rw [hr] at h
      exact absurd h (return_error_ret_ne_zero _ he _)

/-! ## Lemmas about the tokens of a line -/

/-- The whitespace-terminated tokens are an initial part of the tokens. -/
theorem tokens_from_eq_terminated_append (str : List Char) :
    ∀ cur : List Char, ∃ rest, tokens_from str cur = terminated_tokens_from str cur ++ rest := by
  induction str with
  | nil => intro cur; exact ⟨_, by rw [terminated_tokens_from, List.nil_append]⟩
  | cons c str ih =>
    intro cur
    rw [tokens_from, terminated_tokens_from]
    by_cases hc : c = NUL
    · rw [if_pos hc, if_pos hc]; exact ⟨_, (List.nil_append _).symm⟩
    · rw [if_neg hc, if_neg hc]
      by_cases hs : isspace c = true
      · rw [if_pos hs, if_pos hs]
        by_cases hb : cur = []
        · rw [if_pos hb, if_pos hb]; exact ih []
        · rw [if_neg hb, if_neg hb]
          obtain ⟨rest, hr⟩ := ih []
          exact ⟨rest, by rw [hr, List.cons_append]⟩
      · rw [if_neg hs, if_neg hs]; exact ih (cur ++ [c])

/-- On a line without NUL that ends in whitespace every token is terminated. -/
theorem tokens_from_eq_terminated (str : List Char) :
    ∀ (cur : List Char) (w : Char), NUL ∉ str → str.getLast? = some w → isspace w = true →
      tokens_from str cur = terminated_tokens_from str cur := by
  induction str with
  | nil => intro cur w _ h _; simp at h
  | cons c str ih =>
    intro cur w hn hl hw
    have hc : c ≠ NUL := fun h => hn (h ▸ List.mem_cons_self c str)
    have hn2 : NUL ∉ str := fun h => hn (List.mem_cons_of_mem c h)
    rw [tokens_from, terminated_tokens_from, if_neg hc, if_neg hc]
    cases str with
    | nil =>
      simp only [List.getLast?_singleton, Option.some.injEq] at hl
      subst hl
      rw [if_pos hw, if_pos hw]
      simp only [tokens_from, terminated_tokens_from, if_true]
    | cons c2 str2 =>
      have hl2 : (c2 :: str2).getLast? = some w := by
        rw [List.getLast?_cons_cons] at hl; exact hl
      by_cases hs : isspace c = true
      · rw [if_pos hs, if_pos hs, ih [] w hn2 hl2 hw]
      · rw [if_neg hs, if_neg hs]; exact ih (cur ++ [c]) w hn2 hl2 hw

theorem tokens_resolve_initial (lk : List Char → Option Dev) (ts rest : List (List Char))
    (h : tokens_resolve lk (ts ++ rest)) : tokens_resolve lk ts := by
  have key : ∀ (i : Nat) (t : List Char), ts.get? i = some t → (ts ++ rest).get? i = some t := by
    intro i t hi
    simp only [List.get?_eq_getElem?] at hi ⊢
    have hlt : i < ts.length := by
      by_contra hge
      rw [List.getElem?_eq_none (by omega)] at hi
      exact absurd hi (by simp)
    rw [List.getElem?_append_left hlt]
    exact hi
  obtain ⟨h1, h2, h3, h4⟩ := h
  exact ⟨fun t ht => h1 t (key 0 t ht), fun t ht => h2 t (key 1 t ht),
    fun dir hd f hf => h3 dir (key 1 dir hd) f (key 2 f hf), fun t ht => h4 t (key 3 t ht)⟩

/-- Fewer than four tokens that all resolve end in `ERR_NOT_ENOUGH_ARGS`. -/
theorem resolve_tokens_short (lk : List Char → Option Dev) (ts : List (List Char))
    (cmd : command) (hlen : ts.length < 4) (hres : tokens_resolve lk ts) :
    ∃ c, resolve_tokens lk ts NONE cmd = return_error ERR_NOT_ENOUGH_ARGS c := by
  match ts, hlen with
  | [], _ => exact ⟨cmd, rfl⟩
  | [t1], _ =>
    rw [tokens_resolve_one] at hres
    obtain ⟨d, hd⟩ := Option.isSome_iff_exists.mp hres
    have s1 : set_attr lk cmd t1 (NONE + 1) = return_ok { cmd with dev := some d } := by
      rw [show NONE + 1 = DEV from rfl, set_attr_DEV_eq, hd]
    rw [resolve_tokens_cons_ok lk _ _ _ _ _ s1 (by decide)]
    exact ⟨_, rfl⟩
  | [t1, t2], _ =>
    rw [tokens_resolve_two] at hres
    obtain ⟨d, hd⟩ := Option.isSome_iff_exists.mp hres.1
    have s1 : set_attr lk cmd t1 (NONE + 1) = return_ok { cmd with dev := some d } := by
      rw [show NONE + 1 = DEV from rfl, set_attr_DEV_eq, hd]
    have s2 := set_attr_RX_TX_ok lk { cmd with dev := some d } t2 hres.2
    rw [resolve_tokens_cons_ok lk _ _ _ _ _ s1 (by decide),
      resolve_tokens_cons_ok lk _ _ _ _ _ s2 (by decide)]
    exact ⟨_, rfl⟩
  | [t1, t2, t3], _ =>
    rw [tokens_resolve_three] at hres
    obtain ⟨d, hd⟩ := Option.isSome_iff_exists.mp hres.1
    have s1 : set_attr lk cmd t1 (NONE + 1) = return_ok { cmd with dev := some d } := by
      rw [show NONE + 1 = DEV from rfl, set_attr_DEV_eq, hd]
    have s2 := set_attr_RX_TX_ok lk { cmd with dev := some d } t2 hres.2.1
    rw [resolve_tokens_cons_ok lk _ _ _ _ _ s1 (by decide),
      resolve_tokens_cons_ok lk _ _ _ _ _ s2 (by decide)]
    rcases set_attr_FIELD_cases lk
        { { cmd with dev := some d } with rx_tx := direction_value t2 } t3 with
      ⟨_, f, _, s3⟩ | ⟨h3, _⟩
    · rw [resolve_tokens_cons_ok lk _ _ _ _ _ s3 (by decide)]
      exact ⟨_, rfl⟩
    · exact absurd ((legal_field_iff_accepted t2 t3 hres.2.1).mp hres.2.2) h3

/-- What `ifstatfake_proc_write` does with a line of at most 63 bytes on which
`parse_cmd` returns an error. -/
theorem proc_write_of_parse_error (lk : List Char → Option Dev) (σ : Store) (line : List Char)
    (e : Nat) (c : command) (hlen : line.length < CMD_BUF_SIZE) (he : e ≤ ERR_INVALID_OP)
    (hp : parse_cmd lk line command.zero = some (return_error e c)) :
    ifstatfake_proc_write lk σ (some line) =
      some { ret := (error e).1, store := σ, log := (error e).2 } := by
  unfold ifstatfake_proc_write
  simp only [kbuf_of_short line hlen, hp]
  rw [if_pos (return_error_ret_ne_zero e he c)]
  rfl

/-- The terminated tokens of a well-formed command line are its four tokens. -/
theorem terminated_tokens_command_line (d dir f : List Char) (o : Char) (n : Nat)
    (hd : token_chars d) (hdne : d ≠ []) (hdir : token_chars dir) (hdirne : dir ≠ [])
    (hf : token_chars f) (hfne : f ≠ []) (ho : o = '=' ∨ o = '+' ∨ o = '-')
    (hn : n < 2 ^ 64) :
    terminated_tokens (command_line d dir f o n) = [d, dir, f, o :: Nat.toDigits 10 n] := by
  have hsp : isspace ' ' = true := by decide
  have hnl : isspace (Char.ofNat 10) = true := by decide
  have hop : token_chars (o :: Nat.toDigits 10 n) := by
    intro c hc
    rcases List.mem_cons.mp hc with hc | hc
    · rw [hc]
      rcases ho with h | h | h <;> rw [h] <;> decide
    · exact isdigit_token_char c ((simple_strtoul_toDigits n hn).2 c hc)
  unfold terminated_tokens command_line
  rw [terminated_tokens_from_token d ' ' _ hd hdne hsp,
    terminated_tokens_from_token dir ' ' _ hdir hdirne hsp,
    terminated_tokens_from_token f ' ' _ hf hfne hsp]
  have e : o :: (Nat.toDigits 10 n ++ [Char.ofNat 10]) =
      (o :: Nat.toDigits 10 n) ++ Char.ofNat 10 :: [] := rfl
  rw [e, terminated_tokens_from_token (o :: Nat.toDigits 10 n) (Char.ofNat 10) [] hop
    (List.cons_ne_nil _ _) hnl]
  rfl

theorem terminated_tokens_bogus :
    terminated_tokens "eth0 bogus bytes =1\n".toList =
      ["eth0".toList, "bogus".toList, "bytes".toList, "=1".toList] := by
  decide

/-! ## Lemmas about `exec_cmd` -/

theorem exec_cmd_eq (σ : Store) (cmd : command) (d : Dev) (p : Slot)
    (hd : cmd.dev = some d) (hp : exec_cmd_pval cmd = some p) :
    exec_cmd σ cmd =
      if cmd.operation = SET then some (σ.update d ((σ d).set p cmd.amount))
      else if cmd.operation = ADD then
        some (σ.update d ((σ d).set p (((σ d).get p + cmd.amount) % ULONG_MOD)))
      else if cmd.operation = SUB then
        some (σ.update d ((σ d).set p
          ((((σ d).get p : Int) - (cmd.amount : Int)) % (ULONG_MOD : Int)).toNat))
      else some σ := by
  unfold exec_cmd exec_cmd_op
  rw [hd, hp]
  simp only [Option.map_some']
  split_ifs <;> simp only [Option.map_some']
  congr 1
  funext e
  unfold Store.update
  split_ifs with h
  · rw [h]
  · rfl

/-- The digit loop reads the leading digit run and reduces it modulo `2 ^ 64`. -/
theorem simple_strtoul_loop_digit_run (s : List Char) :
    ∀ r : Nat, simple_strtoul_loop s (r % ULONG_MOD) = decimal_value (digit_run s) r % ULONG_MOD := by
  induction s with
  | nil => intro r; rfl
  | cons c cs ih =>
    intro r
    unfold digit_run
    by_cases hc : isdigit c = true
    · rw [simple_strtoul_loop, if_pos hc, List.takeWhile_cons_of_pos hc, decimal_value]
      have h := ih (r * 10 + (c.toNat - 48))
      unfold digit_run at h
      rw [← h]
      congr 1
      simp only [ULONG_MOD]
      omega
    · rw [simple_strtoul_loop, if_neg hc, List.takeWhile_cons_of_neg hc]
      rfl

theorem simple_strtoul_digit_run (s : List Char) :
    simple_strtoul s = decimal_value (digit_run s) 0 % ULONG_MOD := by
  have h := simple_strtoul_loop_digit_run s 0
  rw [Nat.zero_mod] at h
  exact h

theorem set_set_same (s : net_device_stats) (p : Slot) (a b : Nat) :
    (s.set p a).set p b = s.set p b := by
  cases p <;> rfl

theorem set_get_self (s : net_device_stats) (p : Slot) : s.set p (s.get p) = s := by
  cases p <;> rfl

theorem update_update (σ : Store) (d : Dev) (a b : net_device_stats) :
    (σ.update d a).update d b = σ.update d b := by
  funext e
  unfold Store.update
  split_ifs <;> rfl

theorem update_self (σ : Store) (d : Dev) : σ.update d (σ d) = σ := by
  funext e
  unfold Store.update
  split_ifs with h
  · rw [h]
  · rfl

/-- With a device and a resolved slot `exec_cmd` succeeds and writes one value
through the slot. -/
theorem exec_cmd_writes_slot (σ : Store) (cmd : command) (d : Dev) (p : Slot)
    (hd : cmd.dev = some d) (hp : exec_cmd_pval cmd = some p) :
    ∃ v, exec_cmd σ cmd = some (σ.update d ((σ d).set p v)) := by
  rw [exec_cmd_eq σ cmd d p hd hp]
  split_ifs
  · exact ⟨_, rfl⟩
  · exact ⟨_, rfl⟩
  · exact ⟨_, rfl⟩
  · exact ⟨(σ d).get p, by rw [set_get_self, update_self]⟩

theorem simple_strtoul_lt (s : List Char) : simple_strtoul s < ULONG_MOD := by
  rw [simple_strtoul_digit_run]
  exact Nat.mod_lt _ (by decide)

theorem operation_value_le (t : List Char) : operation_value t ≤ SUB := by
  unfold operation_value
  split_ifs <;> decide

/-- A field legal for a direction has one of the ten enum values. -/
theorem legal_field_value_le (dir f : List Char) (hf : legal_field dir f) : (field_value f).getD 0 ≤ CARRIER := by
  unfold legal_field at hf
  simp only [List.mem_cons, List.mem_singleton, List.not_mem_nil, or_false] at hf
  rcases hf with (h | h | h | h | h | h) | ⟨_, h | h⟩ | ⟨_, h | h⟩
  all_goals (subst h; decide)

/-- On the ten enum values the field switch of `exec_cmd` assigns `pval`. -/
theorem exec_cmd_pval_total (cmd : command) (h : cmd.field ≤ CARRIER) :
    ∃ p, exec_cmd_pval cmd = some p := by
  have hc : cmd.field = 0 ∨ cmd.field = 1 ∨ cmd.field = 2 ∨ cmd.field = 3 ∨ cmd.field = 4 ∨
      cmd.field = 5 ∨ cmd.field = 6 ∨ cmd.field = 7 ∨ cmd.field = 8 ∨ cmd.field = 9 := by
    simp only [CARRIER] at h; omega
  unfold exec_cmd_pval
  rcases hc with h | h | h | h | h | h | h | h | h | h <;> rw [h] <;>
    simp only [BYTES, PACKETS, ERRS, DROP, FIFO, FRAME, COMPRESSED, MULTICAST, COLLS, CARRIER,
      Nat.reduceEqDiff, if_true, if_false, OfNat.ofNat_ne_zero, OfNat.zero_ne_ofNat,
      OfNat.ofNat_ne_one, OfNat.one_ne_ofNat, Nat.succ_ne_self, one_ne_zero, zero_ne_one] <;>
    first
      | exact ⟨_, rfl⟩
      | (split_ifs <;> exact ⟨_, rfl⟩)

/-- The command of an accepted line: every member holds a value of its enum,
the device is set and the field switch of `exec_cmd` selects a counter. -/
theorem accepted_command (lk : List Char → Option Dev) (line : List Char) (cmd0 : command)
    (r : Result) (hlen : line.length < CMD_BUF_SIZE) (hparse : parse_cmd lk line cmd0 = some r)
    (hret : r.ret = 0) :
    ∃ d p, r.cmd.dev = some d ∧ exec_cmd_pval r.cmd = some p ∧
      (r.cmd.rx_tx = RX ∨ r.cmd.rx_tx = TX) ∧ r.cmd.field ≤ CARRIER ∧
      r.cmd.operation ≤ SUB ∧ r.cmd.amount < ULONG_MOD := by
  rw [parse_cmd_eq_resolve lk line cmd0 hlen] at hparse
  have hr := Option.some.inj hparse
  rw [← hr] at hret
  obtain ⟨t1, t2, t3, t4, _, hres, hcmd⟩ := resolve_tokens_ok lk _ cmd0 hret
  rw [hcmd] at hr
  obtain ⟨h1, h2, h3, _⟩ := (tokens_resolve_four lk t1 t2 t3 t4).mp hres
  obtain ⟨d, hd⟩ := Option.isSome_iff_exists.mp h1
  have hfield := legal_field_value_le t2 t3 h3
  obtain ⟨p, hp⟩ := exec_cmd_pval_total (built_command lk t1 t2 t3 t4) hfield
  rw [← hr]
  refine ⟨d, p, hd, hp, ?_, hfield, operation_value_le t4, simple_strtoul_lt _⟩
  show direction_value t2 = RX ∨ direction_value t2 = TX
  unfold direction_value
  split_ifs
  · exact Or.inl rfl
  · exact Or.inr rfl

/-- The members of the record no slot points to are never written. -/
theorem set_other_members (s : net_device_stats) (p : Slot) (v : Nat) :
    (s.set p v).rx_length_errors = s.rx_length_errors ∧
    (s.set p v).rx_over_errors = s.rx_over_errors ∧
    (s.set p v).rx_crc_errors = s.rx_crc_errors ∧
    (s.set p v).rx_missed_errors = s.rx_missed_errors ∧
    (s.set p v).tx_aborted_errors = s.tx_aborted_errors ∧
    (s.set p v).tx_heartbeat_errors = s.tx_heartbeat_errors ∧
    (s.set p v).tx_window_errors = s.tx_window_errors := by
  cases p <;> exact ⟨rfl, rfl, rfl, rfl, rfl, rfl, rfl⟩

/-- What `ifstatfake_proc_write` does with a line of at most 63 bytes that
`parse_cmd` accepts and `exec_cmd` executes. -/
theorem proc_write_of_parse_ok (lk : List Char → Option Dev) (σ σ' : Store) (line : List Char)
    (cmd : command) (hlen : line.length < CMD_BUF_SIZE)
    (hp : parse_cmd lk line command.zero = some (return_ok cmd))
    (he : exec_cmd σ cmd = some σ') :
    ifstatfake_proc_write lk σ (some line) =
      some { ret := (line.length : Int), store := σ', log := [] } := by
  unfold ifstatfake_proc_write
  simp only [kbuf_of_short line hlen, hp]
  have hz : ¬ (return_ok cmd).ret ≠ 0 := not_not.mpr rfl
  rw [if_neg hz]
  simp only [return_ok, he]

theorem terminated_tokens_frame :
    terminated_tokens "eth0 rx frame =1\n".toList =
      ["eth0".toList, "rx".toList, "frame".toList, "=1".toList] := by
  decide

/-! ## Lemmas about whitespace in a line -/

theorem terminated_tokens_from_congr (x y : List Char)
    (h : ∀ cur, terminated_tokens_from x cur = terminated_tokens_from y cur) (a : List Char) :
    ∀ cur, terminated_tokens_from (a ++ x) cur = terminated_tokens_from (a ++ y) cur := by
  induction a with
  | nil => intro cur; exact h cur
  | cons c a ih =>
    intro cur
    rw [List.cons_append, List.cons_append, terminated_tokens_from, terminated_tokens_from,
      ih [], ih (cur ++ [c])]

theorem terminated_tokens_from_space (w : Char) (x cur : List Char) (hw : isspace w = true) :
    terminated_tokens_from (w :: x) cur =
      if cur = [] then terminated_tokens_from x [] else cur :: terminated_tokens_from x [] := by
  rw [terminated_tokens_from, if_neg (isspace_ne_NUL w hw), if_pos hw]

theorem terminated_tokens_from_space_space (w1 w2 : Char) (x cur : List Char)
    (h1 : isspace w1 = true) (h2 : isspace w2 = true) :
    terminated_tokens_from (w1 :: w2 :: x) cur = terminated_tokens_from (w1 :: x) cur := by
  rw [terminated_tokens_from_space w1 _ cur h1, terminated_tokens_from_space w2 x [] h2,
    terminated_tokens_from_space w1 x cur h1, if_pos rfl]

theorem terminated_tokens_from_space_swap (w1 w2 : Char) (x cur : List Char)
    (h1 : isspace w1 = true) (h2 : isspace w2 = true) :
    terminated_tokens_from (w1 :: x) cur = terminated_tokens_from (w2 :: x) cur := by
  rw [terminated_tokens_from_space w1 x cur h1, terminated_tokens_from_space w2 x cur h2]

theorem terminated_tokens_from_no_space (t : List Char) (ht : ∀ c ∈ t, isspace c = false) :
    ∀ cur, terminated_tokens_from t cur = [] := by
  induction t with
  | nil => intro cur; rfl
  | cons c t ih =>
    intro cur
    rw [terminated_tokens_from]
    by_cases hc : c = NUL
    · rw [if_pos hc]
    · rw [if_neg hc]
      simp only [ht c (List.mem_cons_self c t), Bool.false_eq_true, if_false]
      exact ih (fun x hx => ht x (List.mem_cons_of_mem c hx)) _

theorem terminated_tokens_from_append_no_space (t : List Char)
    (ht : ∀ c ∈ t, isspace c = false) (s : List Char) :
    ∀ cur, terminated_tokens_from (s ++ t) cur = terminated_tokens_from s cur := by
  have h := terminated_tokens_from_congr t [] (fun cur => by
    rw [terminated_tokens_from_no_space t ht cur]; rfl) s
  intro cur
  rw [h cur, List.append_nil]

theorem terminated_tokens_from_ne_nil (str : List Char) :
    ∀ cur, ∀ t ∈ terminated_tokens_from str cur, t ≠ [] := by
  induction str with
  | nil => intro cur t ht; simp [terminated_tokens_from] at ht
  | cons c str ih =>
    intro cur t ht
    rw [terminated_tokens_from] at ht
    by_cases hc : c = NUL
    · rw [if_pos hc] at ht; simp at ht
    · rw [if_neg hc] at ht
      by_cases hs : isspace c = true
      · rw [if_pos hs] at ht
        by_cases hb : cur = []
        · rw [if_pos hb] at ht; exact ih [] t ht
        · rw [if_neg hb] at ht
          rcases List.mem_cons.mp ht with h | h
          · rw [h]; exact hb
          · exact ih [] t h
      · rw [if_neg hs] at ht; exact ih _ t ht

/-- Lines of at most 63 bytes with the same terminated tokens parse alike. -/
theorem parse_cmd_eq_of_tokens (lk : List Char → Option Dev) (x y : List Char) (cmd : command)
    (hx : x.length ≤ 63) (hy : y.length ≤ 63)
    (h : terminated_tokens x = terminated_tokens y) :
    parse_cmd lk x cmd = parse_cmd lk y cmd := by
  rw [parse_cmd_eq_resolve lk x cmd (by simp only [CMD_BUF_SIZE]; omega),
    parse_cmd_eq_resolve lk y cmd (by simp only [CMD_BUF_SIZE]; omega), h]

/-- From a state whose write cursor is at most the number of characters
consumed, every access to `buf` is at an index below that number. -/
theorem parse_cmd_buf_accesses_bound (lk : List Char → Option Dev) (str : List Char) :
    ∀ (is : Nat) (buf : List Char) (attr : Nat) (cmd : command), buf.length ≤ is →
      ∀ x ∈ parse_cmd_buf_accesses lk str is buf attr cmd,
        x.2 < x.1 ∧ x.1 ≤ is + str.length := by
  induction str with
  | nil => intro is buf attr cmd _ x hx; simp [parse_cmd_buf_accesses] at hx
  | cons c str ih =>
    intro is buf attr cmd hb x hx
    have step : ∀ (b : List Char) (a : Nat) (k : command), b.length ≤ is + 1 →
        x ∈ parse_cmd_buf_accesses lk str (is + 1) b a k →
        x.2 < x.1 ∧ x.1 ≤ is + (c :: str).length := by
      intro b a k hb2 hx2
      have := ih (is + 1) b a k hb2 x hx2
      simp only [List.length_cons]
      omega
    have here : x = (is + 1, buf.length) → x.2 < x.1 ∧ x.1 ≤ is + (c :: str).length := by
      intro h
      rw [h]
      simp only [List.length_cons]
      omega
    rw [parse_cmd_buf_accesses] at hx
    by_cases hc : c = NUL
    · rw [if_pos hc] at hx; simp at hx
    · rw [if_neg hc] at hx
      by_cases hs : isspace c = true
      · rw [if_pos hs] at hx
        rcases List.mem_cons.mp hx with h | h
        · exact here h
        · by_cases hbuf : buf = []
          · rw [if_pos hbuf] at h
            exact step buf attr cmd (by omega) h
          · rw [if_neg hbuf] at h
            by_cases hr : (set_attr lk cmd buf (attr + 1)).ret ≠ 0
            · simp only [if_pos hr] at h; simp at h
            · simp only [if_neg hr] at h
              by_cases ha : attr + 1 > OP
              · rw [if_pos ha] at h; simp at h
              · rw [if_neg ha] at h
                exact step [] _ _ (by simp) h
      · rw [if_neg hs] at hx
        rcases List.mem_cons.mp hx with h | h
        · exact here h
        · by_cases ha : attr > OP
          · rw [if_pos ha] at h; simp at h
          · rw [if_neg ha] at h
            exact step (buf ++ [c]) attr cmd
              (by simp only [List.length_append, List.length_singleton]; omega) h

/-! ## Lemmas about the size of the token buffer -/

theorem buf_fits_of_length (str : List Char) :
    ∀ n : Nat, n + str.length < CMD_BUF_SIZE → buf_fits str n := by
  induction str with
  | nil => intro n _; unfold buf_fits; trivial
  | cons c str ih =>
    intro n h
    simp only [List.length_cons] at h
    unfold buf_fits
    by_cases hc : c = NUL
    · rw [if_pos hc]; trivial
    · rw [if_neg hc]
      refine ⟨by omega, ?_⟩
      by_cases hs : isspace c = true
      · rw [if_pos hs]; exact ih 0 (by omega)
      · rw [if_neg hs]; exact ih (n + 1) (by omega)

theorem buf_fits_append (a x : List Char) :
    ∀ n : Nat, n + a.length < CMD_BUF_SIZE → (∀ m, m ≤ n + a.length → buf_fits x m) →
      buf_fits (a ++ x) n := by
  induction a with
  | nil => intro n _ hx; exact hx n (by simp)
  | cons c a ih =>
    intro n h hx
    simp only [List.length_cons] at h hx
    rw [List.cons_append]
    unfold buf_fits
    by_cases hc : c = NUL
    · rw [if_pos hc]; trivial
    · rw [if_neg hc]
      refine ⟨by omega, ?_⟩
      by_cases hs : isspace c = true
      · rw [if_pos hs]; exact ih 0 (by omega) (fun m hm => hx m (by omega))
      · rw [if_neg hs]; exact ih (n + 1) (by omega) (fun m hm => hx m (by omega))

/-- A whitespace character empties the buffer: what follows it only has to fit
an empty buffer. -/
theorem buf_fits_space (w : Char) (x : List Char) (m : Nat) (hw : isspace w = true)
    (hm : m < CMD_BUF_SIZE) (hx : buf_fits x 0) : buf_fits (w :: x) m := by
  unfold buf_fits
  rw [if_neg (isspace_ne_NUL w hw), if_pos hw]
  exact ⟨hm, hx⟩

/-- The loop of `parse_cmd` is the command builder run on the terminated tokens
whenever the token buffer suffices for the line. -/
theorem parse_cmd_loop_eq_resolve_of_fits (lk : List Char → Option Dev) (str : List Char) :
    ∀ (buf : List Char) (attr : Nat) (cmd : command),
      buf_fits str buf.length → attr ≤ OP →
      parse_cmd_loop lk str buf attr cmd =
        some (resolve_tokens lk (terminated_tokens_from str buf) attr cmd) := by
  induction str with
  | nil => intro buf attr cmd _ _; simp [parse_cmd_loop, terminated_tokens_from, resolve_tokens]
  | cons c str ih =>
    intro buf attr cmd hfit hattr
    have h2 : ¬ attr > OP := by omega
    rw [parse_cmd_loop, terminated_tokens_from]
    unfold buf_fits at hfit
    by_cases hc : c = NUL
    · simp only [if_pos hc, resolve_tokens]
    · rw [if_neg hc] at hfit
      have h1 : ¬ CMD_BUF_SIZE ≤ buf.length := by omega
      simp only [if_neg hc]
      by_cases hs : isspace c = true
      · rw [if_pos hs] at hfit
        simp only [hs, if_true, if_neg h1]
        by_cases hb : buf = []
        · simp only [if_pos hb]
          subst hb
          exact ih [] attr cmd hfit.2 hattr
        · simp only [if_neg hb, resolve_tokens]
          by_cases hr : (set_attr lk cmd buf (attr + 1)).ret ≠ 0
          · simp only [if_pos hr]
          · simp only [if_neg hr]
            by_cases ha : attr + 1 > OP
            · simp only [if_pos ha]
            · simp only [if_neg ha]
              exact ih [] (attr + 1) _ hfit.2 (by omega)
      · rw [if_neg hs] at hfit
        simp only [hs, Bool.false_eq_true, if_false, if_neg h1, if_neg h2]
        exact ih (buf ++ [c]) attr cmd
          (by simp only [List.length_append, List.length_singleton]; exact hfit.2) hattr

/-- Lines the token buffer suffices for parse alike when they have the same
terminated tokens. -/
theorem parse_cmd_eq_of_fits (lk : List Char → Option Dev) (x y : List Char) (cmd : command)
    (hx : buf_fits x 0) (hy : buf_fits y 0) (h : terminated_tokens x = terminated_tokens y) :
    parse_cmd lk x cmd = parse_cmd lk y cmd := by
  unfold parse_cmd
  rw [parse_cmd_loop_eq_resolve_of_fits lk x [] NONE cmd hx (by decide),
    parse_cmd_loop_eq_resolve_of_fits lk y [] NONE cmd hy (by decide)]
  exact congrArg (fun ts => some (resolve_tokens lk ts NONE cmd)) h

/-! ## The claims -/

/-- C1: for a registered device name `d` (a non-empty token), a direction and a
field legal for it with target counter `p`, an operation character `o` among
`=`, `+`, `-` and an amount `n < 2 ^ 64`, the newline-terminated line
`d dir f o<n>` of at most 63 bytes makes `parse_cmd` return 0, `exec_cmd`
succeeds on the command it built, the write returns the byte count, and the
counter `p` of the device then holds `n` for `=`, `(old + n) mod 2 ^ 64` for `+`
and `(old - n) mod 2 ^ 64` for `-`. -/
theorem valid_command_executes (lk : List Char → Option Dev) (σ : Store) (cmd0 : command)
    (d : List Char) (dev : Dev) (dir f : List Char) (p : Slot) (o : Char) (n : Nat)
    (hreg : lk d = some dev) (hdne : d ≠ []) (hd : token_chars d)
    (hleg : (dir, f, p) ∈ legal_targets) (ho : o = '=' ∨ o = '+' ∨ o = '-')
    (hn : n < 2 ^ 64) (hlen : (command_line d dir f o n).length ≤ 63) :
    ∃ cmd σ', parse_cmd lk (command_line d dir f o n) cmd0 = some (return_ok cmd) ∧
      (return_ok cmd).ret = 0 ∧
      exec_cmd σ cmd = some σ' ∧
      ifstatfake_proc_write lk σ (some (command_line d dir f o n)) =
        some { ret := ((command_line d dir f o n).length : Int), store := σ', log := [] } ∧
      (o = '=' → (σ' dev).get p = n) ∧
      (o = '+' → (σ' dev).get p = ((σ dev).get p + n) % 2 ^ 64) ∧
      (o = '-' → (((σ' dev).get p : Nat) : Int) = (((σ dev).get p : Int) - (n : Int)) % 2 ^ 64) := by
  have hl : (command_line d dir f o n).length < CMD_BUF_SIZE := by
    simp only [CMD_BUF_SIZE]; omega
  obtain ⟨hdir, hdirne, hf, hfne, hisdir, hlegal, hpval⟩ := legal_targets_spec dir f p hleg
  have hop : is_operation (o :: Nat.toDigits 10 n) := by
    unfold is_operation
    rcases ho with h | h | h <;> rw [h] <;> simp
  have htoks := terminated_tokens_command_line d dir f o n hd hdne hdir hdirne hf hfne ho hn
  have hres : tokens_resolve lk [d, dir, f, o :: Nat.toDigits 10 n] :=
    (tokens_resolve_four lk _ _ _ _).mpr ⟨by rw [hreg]; rfl, hisdir, hlegal, hop⟩
  have key : ∀ c0 : command, parse_cmd lk (command_line d dir f o n) c0 =
      some (return_ok (built_command lk d dir f (o :: Nat.toDigits 10 n))) := by
    intro c0
    rw [parse_cmd_eq_resolve lk _ c0 hl, htoks]
    rcases resolve_tokens_four lk d dir f (o :: Nat.toDigits 10 n) c0 with ⟨_, h⟩ | ⟨h, _⟩
    · rw [h]
    · exact absurd hres h
  have hdev : (built_command lk d dir f (o :: Nat.toDigits 10 n)).dev = some dev := hreg
  have hp : exec_cmd_pval (built_command lk d dir f (o :: Nat.toDigits 10 n)) = some p :=
    hpval _ rfl rfl
  have hamount : (built_command lk d dir f (o :: Nat.toDigits 10 n)).amount = n :=
    (simple_strtoul_toDigits n hn).1
  have hexec := exec_cmd_eq σ _ dev p hdev hp
  have hoper : (built_command lk d dir f (o :: Nat.toDigits 10 n)).operation =
      operation_value (o :: Nat.toDigits 10 n) := rfl
  have hwrite : ∀ σ', exec_cmd σ (built_command lk d dir f (o :: Nat.toDigits 10 n)) = some σ' →
      ifstatfake_proc_write lk σ (some (command_line d dir f o n)) =
        some { ret := ((command_line d dir f o n).length : Int), store := σ', log := [] } := by
    intro σ' h
    unfold ifstatfake_proc_write
    simp only [kbuf_of_short _ hl, key command.zero]
    have hz : ¬ (return_ok (built_command lk d dir f (o :: Nat.toDigits 10 n))).ret ≠ 0 :=
      not_not.mpr rfl
    rw [if_neg hz]
    simp only [return_ok, h]
  rw [hamount, hoper] at hexec
  rcases ho with h | h | h
  · subst h
    rw [show operation_value ('=' :: Nat.toDigits 10 n) = SET from rfl, if_pos rfl] at hexec
    refine ⟨_, _, key cmd0, rfl, hexec, hwrite _ hexec, ?_, ?_, ?_⟩
    · intro _; rw [update_same, get_set_same]
    · intro h; exact absurd h (by decide)
    · intro h; exact absurd h (by decide)
  · subst h
    rw [show operation_value ('+' :: Nat.toDigits 10 n) = ADD from rfl, if_neg (by decide),
      if_pos rfl] at hexec
    refine ⟨_, _, key cmd0, rfl, hexec, hwrite _ hexec, ?_, ?_, ?_⟩
    · intro h; exact absurd h (by decide)
    · intro _; rw [update_same, get_set_same]
    · intro h; exact absurd h (by decide)
  · subst h
    rw [show operation_value ('-' :: Nat.toDigits 10 n) = SUB from rfl, if_neg (by decide),
      if_neg (by decide), if_pos rfl] at hexec
    refine ⟨_, _, key cmd0, rfl, hexec, hwrite _ hexec, ?_, ?_, ?_⟩
    · intro h; exact absurd h (by decide)
    · intro h; exact absurd h (by decide)
    · intro _
      rw [update_same, get_set_same]
      exact Int.toNat_of_nonneg (Int.emod_nonneg _ (by norm_num))

/-- Witness for C1. -/
theorem valid_command_executes_witness :
    ∃ σ', ifstatfake_proc_write eth0_registry store_rx_bytes_5
        (some "eth0 rx bytes +18446744073709551615\n".toList) =
          some { ret := 36, store := σ', log := [] } ∧
      (σ' 0).get .rx_bytes = 4 := by
  obtain ⟨_, σ', _, _, _, hw, _, hadd, _⟩ :=
    valid_command_executes eth0_registry store_rx_bytes_5 command.zero "eth0".toList 0
      "rx".toList "bytes".toList .rx_bytes '+' 18446744073709551615
      (by decide) (by decide) (by decide) (by decide) (by decide) (by norm_num) (by decide)
  exact ⟨σ', hw, (hadd rfl).trans (by decide)⟩

/-- C2: the lines `eth0 rx bytes =100` and `eth0 tx packets +50`, ending right
after the fourth token, are not executed: the write returns `-EINVAL` with the
warning "Not enough arguments given" and leaves every counter as it was, because
the fourth token is never handed to `set_attr` (`operation` and `amount` are still
0 when `parse_cmd` returns).  The same lines followed by a newline set
`rx_bytes` to 100 and add 50 to `tx_packets`. -/
theorem unterminated_fourth_token_rejected (σ : Store) :
    ifstatfake_proc_write eth0_registry σ (some "eth0 rx bytes =100".toList) =
      some { ret := -EINVAL, store := σ,
             log := ["ifstatfake: Not enough arguments given\n"] } ∧
    ifstatfake_proc_write eth0_registry σ (some "eth0 tx packets +50".toList) =
      some { ret := -EINVAL, store := σ,
             log := ["ifstatfake: Not enough arguments given\n"] } ∧
    parse_cmd eth0_registry "eth0 rx bytes =100".toList command.zero =
      some (return_error ERR_NOT_ENOUGH_ARGS
        { dev := some 0, rx_tx := RX, field := BYTES, operation := 0, amount := 0 }) ∧
    ifstatfake_proc_write eth0_registry σ (some "eth0 rx bytes =100\n".toList) =
      some { ret := 19, store := σ.update 0 ((σ 0).set .rx_bytes 100), log := [] } ∧
    ifstatfake_proc_write eth0_registry σ (some "eth0 tx packets +50\n".toList) =
      some { ret := 20,
             store := σ.update 0 ((σ 0).set .tx_packets (((σ 0).tx_packets + 50) % 2 ^ 64)),
             log := [] } :=
  ⟨rfl, rfl, rfl, rfl, rfl⟩

/-- C3: on every user buffer `parse_cmd` returns a result for the truncated copy,
and when that result is an error (one of the six error kinds, never 0)
`ifstatfake_proc_write` returns the same value and log with the store itself,
`exec_cmd` not being run; `parse_cmd` returns 0 only on exactly four
whitespace-terminated tokens that all resolve, so a write whose store differs
from the one before it has had all four attributes accepted. -/
theorem parse_error_leaves_store (lk : List Char → Option Dev) (σ : Store) (b : List Char) :
    ∃ r, parse_cmd lk (kbuf_of b) command.zero = some r ∧
      (r.ret ≠ 0 →
        ifstatfake_proc_write lk σ (some b) = some { ret := r.ret, store := σ, log := r.log } ∧
        ∃ e c, e ≤ ERR_INVALID_OP ∧ r = return_error e c) ∧
      (r.ret = 0 →
        ∃ t1 t2 t3 t4, terminated_tokens (kbuf_of b) = [t1, t2, t3, t4] ∧
          tokens_resolve lk [t1, t2, t3, t4] ∧ r = return_ok (built_command lk t1 t2 t3 t4)) ∧
      (∀ w, ifstatfake_proc_write lk σ (some b) = some w → w.store ≠ σ → r.ret = 0) := by
  have hp := parse_cmd_eq_resolve lk (kbuf_of b) command.zero (kbuf_of_length b)
  refine ⟨_, hp, ?_, ?_, ?_⟩
  · intro hr
    constructor
    · unfold ifstatfake_proc_write
      simp only [hp]
      rw [if_pos hr]
    · rcases resolve_tokens_result lk (terminated_tokens (kbuf_of b)) NONE command.zero with
        ⟨c, hc⟩ | ⟨e, c, he, hc⟩
      · rw [hc] at hr
        exact absurd rfl hr
      · exact ⟨e, c, he, hc⟩
  · intro hr
    obtain ⟨t1, t2, t3, t4, h1, h2, h3⟩ := resolve_tokens_ok lk _ command.zero hr
    exact ⟨t1, t2, t3, t4, h1, h2, h3⟩
  · intro w hw hne
    by_contra hr
    unfold ifstatfake_proc_write at hw
    simp only [hp] at hw
    rw [if_pos hr] at hw
    have := Option.some.inj hw
    rw [← this] at hne
    exact hne rfl

/-- Witness for C3. -/
theorem parse_error_leaves_store_witness :
    ifstatfake_proc_write eth0_registry Store.zero (some "eth0 tx frame =1\n".toList) =
      some { ret := -EINVAL, store := Store.zero,
             log := ["ifstatfake: Invalid field-argument\n"] } := by
  obtain ⟨r, hr, h1, _⟩ :=
    parse_error_leaves_store eth0_registry Store.zero "eth0 tx frame =1\n".toList
  have e : r = return_error ERR_INVALID_FIELD
      { dev := some 0, rx_tx := TX, field := 0, operation := 0, amount := 0 } :=
    Option.some.inj (hr.symm.trans rfl)
  subst e
  exact (h1 (by decide)).1

/-- C4: the line `eth0 rx bytes =1 junk` has five whitespace-delimited tokens of
which the first four resolve, yet `parse_cmd` returns 0 and the write sets
`rx_bytes` to 1: a fifth token that ends the line is silently ignored.  Followed
by a newline the same line fails with `ERR_TOO_MUCH_ARGS`. -/
theorem unterminated_fifth_token_ignored (σ : Store) :
    tokens "eth0 rx bytes =1 junk".toList =
      ["eth0".toList, "rx".toList, "bytes".toList, "=1".toList, "junk".toList] ∧
    parse_cmd eth0_registry "eth0 rx bytes =1 junk".toList command.zero =
      some (return_ok
        { dev := some 0, rx_tx := RX, field := BYTES, operation := SET, amount := 1 }) ∧
    ifstatfake_proc_write eth0_registry σ (some "eth0 rx bytes =1 junk".toList) =
      some { ret := 21, store := σ.update 0 ((σ 0).set .rx_bytes 1), log := [] } ∧
    parse_cmd eth0_registry "eth0 rx bytes =1 junk\n".toList command.zero =
      some (return_error ERR_TOO_MUCH_ARGS
        { dev := some 0, rx_tx := RX, field := BYTES, operation := SET, amount := 1 }) :=
  ⟨by decide, rfl, rfl, rfl⟩

/-- C5: for every line of at most 63 bytes with fewer than four
whitespace-delimited non-empty tokens, each resolving for its position,
`parse_cmd` fails with `ERR_NOT_ENOUGH_ARGS` and the write leaves the store as it
was; so do the empty line and a line of only whitespace. -/
theorem fewer_than_four_tokens (lk : List Char → Option Dev) (σ : Store) (line : List Char)
    (cmd : command) (hlen : line.length ≤ 63) (hcount : (tokens line).length < 4)
    (hres : tokens_resolve lk (tokens line)) :
    (∃ c, parse_cmd lk line cmd = some (return_error ERR_NOT_ENOUGH_ARGS c)) ∧
    ifstatfake_proc_write lk σ (some line) =
      some { ret := -EINVAL, store := σ,
             log := ["ifstatfake: Not enough arguments given\n"] } ∧
    parse_cmd lk [] cmd = some (return_error ERR_NOT_ENOUGH_ARGS cmd) ∧
    parse_cmd lk " \n".toList cmd = some (return_error ERR_NOT_ENOUGH_ARGS cmd) := by
  have hl : line.length < CMD_BUF_SIZE := by simp only [CMD_BUF_SIZE]; omega
  obtain ⟨rest, hrest⟩ := tokens_from_eq_terminated_append line []
  have hts : tokens line = terminated_tokens line ++ rest := hrest
  have hshort : (terminated_tokens line).length < 4 := by
    rw [hts, List.length_append] at hcount; omega
  have hres2 : tokens_resolve lk (terminated_tokens line) :=
    tokens_resolve_initial lk _ rest (hts ▸ hres)
  have key : ∀ c0 : command,
      ∃ c, parse_cmd lk line c0 = some (return_error ERR_NOT_ENOUGH_ARGS c) := by
    intro c0
    obtain ⟨c, hc⟩ := resolve_tokens_short lk _ c0 hshort hres2
    exact ⟨c, by rw [parse_cmd_eq_resolve lk line c0 hl, hc]⟩
  refine ⟨key cmd, ?_, rfl, rfl⟩
  obtain ⟨c, hc⟩ := key command.zero
  exact proc_write_of_parse_error lk σ line _ c hl (by decide) hc

/-- Witness for C5. -/
theorem fewer_than_four_tokens_witness :
    (∃ c, parse_cmd eth0_registry "eth0 rx bytes\n".toList command.zero =
      some (return_error ERR_NOT_ENOUGH_ARGS c)) ∧
    ifstatfake_proc_write eth0_registry Store.zero (some "eth0 rx bytes\n".toList) =
      some { ret := -EINVAL, store := Store.zero,
             log := ["ifstatfake: Not enough arguments given\n"] } :=
  have h := fewer_than_four_tokens eth0_registry Store.zero "eth0 rx bytes\n".toList
    command.zero (by decide) (by decide) (by decide)
  ⟨h.1, h.2.1⟩

/-- C6: whatever the command holds, the field case of `set_attr` returns 0 if and
only if the token is exactly one of `bytes`, `packets`, `errs`, `drop`, `fifo`,
`compressed`, or `frame` or `multicast` with `rx_tx = RX`, or `colls` or `carrier`
with `rx_tx = TX`; it then sets `field` to the enum value of the name, and
otherwise fails with `ERR_INVALID_FIELD` leaving the command as it was, as for
`frame` and `multicast` under `TX`, `colls` and `carrier` under `RX`, and the
tokens `bogus`, `byte`, `bytesx` and `Bytes`. -/
theorem set_attr_field_vocabulary (lk : List Char → Option Dev) (cmd : command)
    (t : List Char) :
    ((set_attr lk cmd t FIELD).ret = 0 ↔ field_accepted cmd.rx_tx t) ∧
    (field_accepted cmd.rx_tx t → ∃ f, field_value t = some f ∧
      set_attr lk cmd t FIELD = return_ok { cmd with field := f }) ∧
    (¬ field_accepted cmd.rx_tx t →
      set_attr lk cmd t FIELD = return_error ERR_INVALID_FIELD cmd) ∧
    (cmd.rx_tx = TX →
      set_attr lk cmd "frame".toList FIELD = return_error ERR_INVALID_FIELD cmd ∧
      set_attr lk cmd "multicast".toList FIELD = return_error ERR_INVALID_FIELD cmd) ∧
    (cmd.rx_tx = RX →
      set_attr lk cmd "colls".toList FIELD = return_error ERR_INVALID_FIELD cmd ∧
      set_attr lk cmd "carrier".toList FIELD = return_error ERR_INVALID_FIELD cmd) ∧
    set_attr lk cmd "bogus".toList FIELD = return_error ERR_INVALID_FIELD cmd ∧
    set_attr lk cmd "byte".toList FIELD = return_error ERR_INVALID_FIELD cmd ∧
    set_attr lk cmd "bytesx".toList FIELD = return_error ERR_INVALID_FIELD cmd ∧
    set_attr lk cmd "Bytes".toList FIELD = return_error ERR_INVALID_FIELD cmd := by
  have key : ∀ (c : command) (s : List Char), ¬ field_accepted c.rx_tx s →
      set_attr lk c s FIELD = return_error ERR_INVALID_FIELD c := by
    intro c s hn
    rcases set_attr_FIELD_cases lk c s with ⟨ha, _⟩ | ⟨_, he⟩
    · exact absurd ha hn
    · exact he
  have hmem : ∀ (r : Nat) (s : List Char) (l1 l2 l3 : List (List Char)), s ∉ l1 →
      (s ∈ l2 → r ≠ RX) → (s ∈ l3 → r ≠ TX) →
      ¬ (s ∈ l1 ∨ (s ∈ l2 ∧ r = RX) ∨ (s ∈ l3 ∧ r = TX)) := by
    intro r s l1 l2 l3 h1 h2 h3 h
    rcases h with h | ⟨h, hr⟩ | ⟨h, hr⟩
    · exact h1 h
    · exact h2 h hr
    · exact h3 h hr
  refine ⟨?_, ?_, key cmd t, ?_, ?_, ?_, ?_, ?_, ?_⟩
  · rcases set_attr_FIELD_cases lk cmd t with ⟨ha, f, _, he⟩ | ⟨hn, he⟩
    · rw [he]; exact ⟨fun _ => ha, fun _ => rfl⟩
    · rw [he]
      exact ⟨fun h => absurd h (return_error_ret_ne_zero _ (by decide) _), fun h => absurd h hn⟩
  · intro ha
    rcases set_attr_FIELD_cases lk cmd t with ⟨_, f, hf, he⟩ | ⟨hn, _⟩
    · exact ⟨f, hf, he⟩
    · exact absurd ha hn
  · intro htx
    constructor <;> apply key <;> apply hmem <;> first
      | decide
      | (intro _ h; rw [htx] at h; exact absurd h (by decide))
      | (intro h; exact absurd h (by decide))
  · intro hrx
    constructor <;> apply key <;> apply hmem <;> first
      | decide
      | (intro _ h; rw [hrx] at h; exact absurd h (by decide))
      | (intro h; exact absurd h (by decide))
  all_goals
    apply key; apply hmem <;> first
      | decide
      | (intro h; exact absurd h (by decide))

/-- Witness for C6. -/
theorem set_attr_field_vocabulary_witness :
    field_accepted TX "carrier".toList ∧
    ∃ f, field_value "carrier".toList = some f ∧
      set_attr eth0_registry { command.zero with rx_tx := TX } "carrier".toList FIELD =
        return_ok { { command.zero with rx_tx := TX } with field := f } :=
  ⟨by decide,
    (set_attr_field_vocabulary eth0_registry { command.zero with rx_tx := TX }
      "carrier".toList).2.1 (by decide)⟩

/-- C7: the direction case of `set_attr` sets `RX` on the token `rx`, `TX` on the
token `tx` and fails with `ERR_INVALID_RX_TX` on every other token, as on `RX`,
`r`, `rxx` and `bogus`; so the newline-terminated line `eth0 bogus bytes =1`
with `eth0` registered fails with `ERR_INVALID_RX_TX` and the write leaves the
store as it was. -/
theorem set_attr_direction_exact (lk : List Char → Option Dev) (cmd : command)
    (t : List Char) (σ : Store) :
    (t = "rx".toList → set_attr lk cmd t RX_TX = return_ok { cmd with rx_tx := RX }) ∧
    (t = "tx".toList → set_attr lk cmd t RX_TX = return_ok { cmd with rx_tx := TX }) ∧
    (t ≠ "rx".toList → t ≠ "tx".toList →
      set_attr lk cmd t RX_TX = return_error ERR_INVALID_RX_TX cmd) ∧
    set_attr lk cmd "RX".toList RX_TX = return_error ERR_INVALID_RX_TX cmd ∧
    set_attr lk cmd "r".toList RX_TX = return_error ERR_INVALID_RX_TX cmd ∧
    set_attr lk cmd "rxx".toList RX_TX = return_error ERR_INVALID_RX_TX cmd ∧
    set_attr lk cmd "bogus".toList RX_TX = return_error ERR_INVALID_RX_TX cmd ∧
    (∀ d, lk "eth0".toList = some d →
      parse_cmd lk "eth0 bogus bytes =1\n".toList cmd =
        some (return_error ERR_INVALID_RX_TX { cmd with dev := some d }) ∧
      ifstatfake_proc_write lk σ (some "eth0 bogus bytes =1\n".toList) =
        some { ret := -EINVAL, store := σ, log := ["ifstatfake: Invalid rx/tx-flag\n"] }) := by
  have key : ∀ (c : command) (s : List Char), s ≠ "rx".toList → s ≠ "tx".toList →
      set_attr lk c s RX_TX = return_error ERR_INVALID_RX_TX c := by
    intro c s h1 h2
    rw [set_attr_RX_TX_eq, if_neg h1, if_neg h2]
  have hline : ∀ (c : command) (d : Dev), lk "eth0".toList = some d →
      parse_cmd lk "eth0 bogus bytes =1\n".toList c =
        some (return_error ERR_INVALID_RX_TX { c with dev := some d }) := by
    intro c d hd
    rw [parse_cmd_eq_resolve lk _ c (by decide), terminated_tokens_bogus]
    have h1 : set_attr lk c "eth0".toList (NONE + 1) = return_ok { c with dev := some d } := by
      rw [show NONE + 1 = DEV from rfl, set_attr_DEV_eq, hd]
    have h2 : set_attr lk { c with dev := some d } "bogus".toList (NONE + 1 + 1) =
        return_error ERR_INVALID_RX_TX { c with dev := some d } :=
      key _ _ (by decide) (by decide)
    rw [resolve_tokens_cons_ok lk _ _ _ _ _ h1 (by decide),
      resolve_tokens_cons_error lk _ _ _ _ _ _ h2 (by decide)]
  refine ⟨?_, ?_, key cmd t, key _ _ (by decide) (by decide), key _ _ (by decide) (by decide),
    key _ _ (by decide) (by decide), key _ _ (by decide) (by decide), ?_⟩
  · intro h; rw [set_attr_RX_TX_eq, if_pos h]
  · intro h; subst h; rfl
  · intro d hd
    refine ⟨hline cmd d hd, ?_⟩
    unfold ifstatfake_proc_write
    simp only [kbuf_of_short _ (by decide : "eth0 bogus bytes =1\n".toList.length < CMD_BUF_SIZE),
      hline command.zero d hd]
    rfl

/-- Witness for C7. -/
theorem set_attr_direction_exact_witness :
    parse_cmd eth0_registry "eth0 bogus bytes =1\n".toList command.zero =
        some (return_error ERR_INVALID_RX_TX { command.zero with dev := some 0 }) ∧
      ifstatfake_proc_write eth0_registry Store.zero (some "eth0 bogus bytes =1\n".toList) =
        some { ret := -EINVAL, store := Store.zero,
               log := ["ifstatfake: Invalid rx/tx-flag\n"] } :=
  (set_attr_direction_exact eth0_registry command.zero "rx".toList Store.zero).2.2.2.2.2.2.2 0
    (by decide)

/-- C8: for every newline-terminated line (a C string of at most 63 bytes) whose
first token is not the name of a registered device, `parse_cmd` fails with
`ERR_NO_SUCH_DEVICE` whatever follows the token, and the write leaves the store
as it was. -/
theorem unknown_device_rejected (lk : List Char → Option Dev) (σ : Store) (line : List Char)
    (cmd : command) (t : List Char) (hlen : line.length ≤ 63) (hnul : NUL ∉ line)
    (hnl : line.getLast? = some (Char.ofNat 10)) (hfirst : (tokens line).head? = some t)
    (hunreg : lk t = none) :
    parse_cmd lk line cmd = some (return_error ERR_NO_SUCH_DEVICE { cmd with dev := none }) ∧
    ifstatfake_proc_write lk σ (some line) =
      some { ret := -EINVAL, store := σ, log := ["ifstatfake: No such device\n"] } := by
  have hl : line.length < CMD_BUF_SIZE := by simp only [CMD_BUF_SIZE]; omega
  have hts : tokens line = terminated_tokens line :=
    tokens_from_eq_terminated line [] _ hnul hnl (by decide)
  rw [hts] at hfirst
  obtain ⟨ts, hcons⟩ : ∃ ts, terminated_tokens line = t :: ts := by
    cases h : terminated_tokens line with
    | nil => rw [h] at hfirst; simp at hfirst
    | cons a ts =>
      rw [h] at hfirst
      simp only [List.head?_cons, Option.some.injEq] at hfirst
      exact ⟨ts, by rw [hfirst]⟩
  have key : ∀ c0 : command, parse_cmd lk line c0 =
      some (return_error ERR_NO_SUCH_DEVICE { c0 with dev := none }) := by
    intro c0
    have s1 : set_attr lk c0 t (NONE + 1) =
        return_error ERR_NO_SUCH_DEVICE { c0 with dev := none } := by
      rw [show NONE + 1 = DEV from rfl, set_attr_DEV_eq, hunreg]
    rw [parse_cmd_eq_resolve lk line c0 hl, hcons,
      resolve_tokens_cons_error lk _ _ _ _ _ _ s1 (by decide)]
  exact ⟨key cmd, proc_write_of_parse_error lk σ line _ _ hl (by decide) (key command.zero)⟩

/-- Witness for C8. -/
theorem unknown_device_rejected_witness :
    parse_cmd eth0_registry "wlan7 bogus =1 x y z\n".toList command.zero =
      some (return_error ERR_NO_SUCH_DEVICE { command.zero with dev := none }) ∧
    ifstatfake_proc_write eth0_registry Store.zero (some "wlan7 bogus =1 x y z\n".toList) =
      some { ret := -EINVAL, store := Store.zero, log := ["ifstatfake: No such device\n"] } :=
  unknown_device_rejected eth0_registry Store.zero "wlan7 bogus =1 x y z\n".toList command.zero
    "wlan7".toList (by decide) (by decide) (by decide) (by decide) (by decide)

/-- C9: for a command with a device and a resolved slot `p`, a slot value and an
amount below `2 ^ 64`, `exec_cmd` succeeds and leaves in `p` the amount for `SET`,
`(v + a) mod 2 ^ 64` for `ADD` and `(v - a) mod 2 ^ 64` for `SUB`; a slot holding 5
holds `2 ^ 64 - 5` after `SUB` with amount 10. -/
theorem exec_cmd_wraparound (σ : Store) (cmd : command) (d : Dev) (p : Slot)
    (hd : cmd.dev = some d) (hp : exec_cmd_pval cmd = some p)
    (hv : (σ d).get p < ULONG_MOD) (ha : cmd.amount < ULONG_MOD) :
    (cmd.operation = SET → ∃ σ', exec_cmd σ cmd = some σ' ∧ (σ' d).get p = cmd.amount) ∧
    (cmd.operation = ADD → ∃ σ', exec_cmd σ cmd = some σ' ∧
      (σ' d).get p = ((σ d).get p + cmd.amount) % 2 ^ 64) ∧
    (cmd.operation = SUB → ∃ σ', exec_cmd σ cmd = some σ' ∧
      (((σ' d).get p : Nat) : Int) = (((σ d).get p : Int) - (cmd.amount : Int)) % 2 ^ 64 ∧
      (σ' d).get p = ((σ d).get p + 2 ^ 64 - cmd.amount) % 2 ^ 64) ∧
    (cmd.operation = SUB → (σ d).get p = 5 → cmd.amount = 10 →
      ∃ σ', exec_cmd σ cmd = some σ' ∧ (σ' d).get p = 2 ^ 64 - 5 ∧
        (σ' d).get p = 18446744073709551611) := by
  have hsub : cmd.operation = SUB → ∃ σ', exec_cmd σ cmd = some σ' ∧
      (((σ' d).get p : Nat) : Int) = (((σ d).get p : Int) - (cmd.amount : Int)) % 2 ^ 64 ∧
      (σ' d).get p = ((σ d).get p + 2 ^ 64 - cmd.amount) % 2 ^ 64 := by
    intro h
    rw [exec_cmd_eq σ cmd d p hd hp, h, if_neg (by decide), if_neg (by decide), if_pos rfl]
    refine ⟨_, rfl, ?_, ?_⟩
    · rw [update_same, get_set_same]
      exact Int.toNat_of_nonneg (Int.emod_nonneg _ (by norm_num))
    · rw [update_same, get_set_same]
      simp only [ULONG_MOD] at hv ha ⊢
      omega
  refine ⟨?_, ?_, hsub, ?_⟩
  · intro h
    rw [exec_cmd_eq σ cmd d p hd hp, if_pos h]
    exact ⟨_, rfl, by rw [update_same, get_set_same]⟩
  · intro h
    rw [exec_cmd_eq σ cmd d p hd hp, h, if_neg (by decide), if_pos rfl]
    exact ⟨_, rfl, by rw [update_same, get_set_same]⟩
  · intro h h5 h10
    obtain ⟨σ', h1, _, h3⟩ := hsub h
    refine ⟨σ', h1, ?_, ?_⟩
    · rw [h3, h5, h10]; norm_num
    · rw [h3, h5, h10]; norm_num

/-- Witness for C9. -/
theorem exec_cmd_wraparound_witness :
    ∃ σ', exec_cmd store_rx_bytes_5
        { dev := some 0, rx_tx := RX, field := BYTES, operation := SUB, amount := 10 } = some σ' ∧
      (σ' 0).get .rx_bytes = 2 ^ 64 - 5 ∧ (σ' 0).get .rx_bytes = 18446744073709551611 :=
  (exec_cmd_wraparound store_rx_bytes_5
    { dev := some 0, rx_tx := RX, field := BYTES, operation := SUB, amount := 10 } 0 .rx_bytes
    rfl rfl (by decide) (by decide)).2.2.2 rfl rfl rfl

/-- C10: the operation case of `set_attr` selects the operation from the first
character of the token: `=` gives `SET`, `+` gives `ADD`, `-` gives `SUB`, the
amount being read from the rest; every other token, such as `100`, fails with
`ERR_INVALID_OP` and leaves the command as it was. -/
theorem set_attr_operation_first_char (lk : List Char → Option Dev) (cmd : command)
    (t : List Char) :
    (t.head? = some '=' → set_attr lk cmd t OP =
      return_ok { cmd with operation := SET, amount := simple_strtoul t.tail }) ∧
    (t.head? = some '+' → set_attr lk cmd t OP =
      return_ok { cmd with operation := ADD, amount := simple_strtoul t.tail }) ∧
    (t.head? = some '-' → set_attr lk cmd t OP =
      return_ok { cmd with operation := SUB, amount := simple_strtoul t.tail }) ∧
    (¬ is_operation t → set_attr lk cmd t OP = return_error ERR_INVALID_OP cmd) ∧
    set_attr lk cmd "100".toList OP = return_error ERR_INVALID_OP cmd := by
  have hd : ∀ (s : List Char) (c : Char), s.head? = some c → s.headD NUL = c := by
    intro s c h
    cases s with
    | nil => simp at h
    | cons x xs => simpa using h
  have key : ∀ s : List Char, ¬ is_operation s →
      set_attr lk cmd s OP = return_error ERR_INVALID_OP cmd := by
    intro s hn
    have hh : ∀ c : Char, c ≠ NUL → s.headD NUL = c → s.head? = some c := by
      intro c hc h
      cases s with
      | nil => exact absurd h.symm hc
      | cons x xs => simpa using h
    unfold is_operation at hn
    rw [set_attr_OP_eq,
      if_neg (fun h => hn (Or.inl (hh _ (by decide) h))),
      if_neg (fun h => hn (Or.inr (Or.inl (hh _ (by decide) h)))),
      if_neg (fun h => hn (Or.inr (Or.inr (hh _ (by decide) h))))]
  refine ⟨?_, ?_, ?_, key t, key _ (by decide)⟩
  · intro h
    rw [set_attr_OP_eq, if_pos (hd t _ h)]
  · intro h
    rw [set_attr_OP_eq, hd t _ h, if_neg (by decide), if_pos rfl]
  · intro h
    rw [set_attr_OP_eq, hd t _ h, if_neg (by decide), if_neg (by decide), if_pos rfl]

/-- Witness for C10. -/
theorem set_attr_operation_first_char_witness :
    "-7".toList.head? = some '-' ∧
    set_attr eth0_registry command.zero "-7".toList OP =
      return_ok { command.zero with operation := SUB, amount := simple_strtoul "-7".toList.tail } :=
  ⟨by decide,
    (set_attr_operation_first_char eth0_registry command.zero "-7".toList).2.2.1 (by decide)⟩

/-- C11 (as the code has it): for every operation token with a valid leading
operation character the operation case of `set_attr` succeeds, whatever follows
that character, and the amount is the base-10 value of the longest run of
decimal digits right after it reduced modulo `2 ^ 64`: the value itself when it
is below `2 ^ 64`, 0 when there is no digit as in the token `=`; the token
`+12abc` is accepted as `ADD` with amount 12. -/
theorem operation_amount_modulo (lk : List Char → Option Dev) (cmd : command) (t : List Char)
    (h : is_operation t) :
    set_attr lk cmd t OP =
      return_ok { cmd with operation := operation_value t,
                           amount := decimal_value (digit_run t.tail) 0 % 2 ^ 64 } ∧
    (decimal_value (digit_run t.tail) 0 < 2 ^ 64 →
      (set_attr lk cmd t OP).cmd.amount = decimal_value (digit_run t.tail) 0) ∧
    (digit_run t.tail = [] → (set_attr lk cmd t OP).cmd.amount = 0) ∧
    set_attr lk cmd "=".toList OP = return_ok { cmd with operation := SET, amount := 0 } ∧
    set_attr lk cmd "+12abc".toList OP = return_ok { cmd with operation := ADD, amount := 12 } := by
  have key : set_attr lk cmd t OP =
      return_ok { cmd with operation := operation_value t,
                           amount := decimal_value (digit_run t.tail) 0 % 2 ^ 64 } := by
    rw [set_attr_OP_ok lk cmd t h, simple_strtoul_digit_run]
  refine ⟨key, ?_, ?_, rfl, rfl⟩
  · intro hlt
    rw [key]
    exact Nat.mod_eq_of_lt hlt
  · intro hnil
    rw [key, hnil]
    rfl

/-- Witness for C11. -/
theorem operation_amount_modulo_witness :
    is_operation "-007x9".toList ∧
    set_attr eth0_registry command.zero "-007x9".toList OP =
      return_ok { command.zero with operation := SUB, amount := 7 } :=
  ⟨by decide,
    (operation_amount_modulo eth0_registry command.zero "-007x9".toList (by decide)).1⟩

/-- C11 fails as stated: the token `=18446744073709551616` has a valid operation
character followed by a digit run of value `2 ^ 64`, and the amount `set_attr`
stores is 0; the write of that command sets `rx_bytes` to 0. -/
theorem operation_amount_wraps :
    is_operation "=18446744073709551616".toList ∧
    decimal_value (digit_run "=18446744073709551616".toList.tail) 0 = 18446744073709551616 ∧
    (set_attr eth0_registry command.zero "=18446744073709551616".toList OP).cmd.amount = 0 ∧
    (set_attr eth0_registry command.zero "=18446744073709551616".toList OP).cmd.amount ≠
      decimal_value (digit_run "=18446744073709551616".toList.tail) 0 ∧
    ifstatfake_proc_write eth0_registry store_rx_bytes_5
        (some "eth0 rx bytes =18446744073709551616\n".toList) =
      some { ret := 36, store := store_rx_bytes_5.update 0 ((store_rx_bytes_5 0).set .rx_bytes 0),
             log := [] } :=
  ⟨by decide, by decide, by decide, by decide, rfl⟩

/-- C12 (as the code has it): `error` maps `ERR_TOO_MUCH_ARGS` to `-E2BIG` and each
of the other five error kinds to `-EINVAL`, every value being negative; two
different kinds always differ in the warning that is printed, and they differ
in the returned value exactly when one of them is `ERR_TOO_MUCH_ARGS`. -/
theorem error_values (e1 e2 : Nat) (h1 : e1 ≤ ERR_INVALID_OP) (h2 : e2 ≤ ERR_INVALID_OP)
    (hne : e1 ≠ e2) :
    (error e1).2 ≠ (error e2).2 ∧
    (error e1).1 < 0 ∧
    (error e1).1 = (if e1 = ERR_TOO_MUCH_ARGS then -E2BIG else -EINVAL) ∧
    ((error e1).1 ≠ (error e2).1 ↔ (e1 = ERR_TOO_MUCH_ARGS ∨ e2 = ERR_TOO_MUCH_ARGS)) := by
  have c1 : e1 = 0 ∨ e1 = 1 ∨ e1 = 2 ∨ e1 = 3 ∨ e1 = 4 ∨ e1 = 5 := by
    simp only [ERR_INVALID_OP] at h1; omega
  have c2 : e2 = 0 ∨ e2 = 1 ∨ e2 = 2 ∨ e2 = 3 ∨ e2 = 4 ∨ e2 = 5 := by
    simp only [ERR_INVALID_OP] at h2; omega
  rcases c1 with rfl | rfl | rfl | rfl | rfl | rfl <;>
    rcases c2 with rfl | rfl | rfl | rfl | rfl | rfl <;>
    first
      | exact absurd rfl hne
      | decide

/-- Witness for C12. -/
theorem error_values_witness :
    (error ERR_INVALID_FIELD).2 ≠ (error ERR_INVALID_OP).2 ∧
    (error ERR_INVALID_FIELD).1 < 0 ∧
    (error ERR_INVALID_FIELD).1 =
      (if ERR_INVALID_FIELD = ERR_TOO_MUCH_ARGS then -E2BIG else -EINVAL) ∧
    ((error ERR_INVALID_FIELD).1 ≠ (error ERR_INVALID_OP).1 ↔
      (ERR_INVALID_FIELD = ERR_TOO_MUCH_ARGS ∨ ERR_INVALID_OP = ERR_TOO_MUCH_ARGS)) :=
  error_values ERR_INVALID_FIELD ERR_INVALID_OP (by decide) (by decide) (by decide)

/-- C12 fails as stated: the different error kinds `ERR_NOT_ENOUGH_ARGS` and
`ERR_NO_SUCH_DEVICE` are mapped to the same returned value, `-EINVAL`. -/
theorem error_values_collide :
    ERR_NOT_ENOUGH_ARGS ≠ ERR_NO_SUCH_DEVICE ∧
    (error ERR_NOT_ENOUGH_ARGS).1 = (error ERR_NO_SUCH_DEVICE).1 ∧
    (error ERR_NOT_ENOUGH_ARGS).1 = -EINVAL := by
  decide

/-- C13: for a command with a device, a resolved slot and the operation `SET`,
`exec_cmd` leaves the amount in the slot, and executing the same command again
on the resulting store gives that store again: the slot still holds the amount
and no counter differs from the state after the first execution. -/
theorem set_is_idempotent (σ : Store) (cmd : command) (d : Dev) (p : Slot)
    (hd : cmd.dev = some d) (hp : exec_cmd_pval cmd = some p) (hop : cmd.operation = SET) :
    ∃ σ1, exec_cmd σ cmd = some σ1 ∧ (σ1 d).get p = cmd.amount ∧
      exec_cmd σ1 cmd = some σ1 := by
  refine ⟨σ.update d ((σ d).set p cmd.amount), ?_, ?_, ?_⟩
  · rw [exec_cmd_eq σ cmd d p hd hp, if_pos hop]
  · rw [update_same, get_set_same]
  · rw [exec_cmd_eq _ cmd d p hd hp, if_pos hop, update_same, set_set_same, update_update]

/-- Witness for C13. -/
theorem set_is_idempotent_witness :
    ∃ σ1, exec_cmd store_rx_bytes_5
        { dev := some 0, rx_tx := RX, field := BYTES, operation := SET, amount := 100 } =
          some σ1 ∧
      (σ1 0).get .rx_bytes = 100 ∧
      exec_cmd σ1
        { dev := some 0, rx_tx := RX, field := BYTES, operation := SET, amount := 100 } =
          some σ1 :=
  set_is_idempotent store_rx_bytes_5
    { dev := some 0, rx_tx := RX, field := BYTES, operation := SET, amount := 100 } 0 .rx_bytes
    rfl rfl rfl

/-- C14: the field switch of `exec_cmd` is the table of the counter mapper: under
`RX` the fields `bytes`, `packets`, `errs`, `drop`, `fifo`, `compressed` select
`rx_bytes`, `rx_packets`, `rx_errors`, `rx_dropped`, `rx_fifo_errors`,
`rx_compressed`, under `TX` the `tx_` counters of the same names; `frame` selects
`rx_frame_errors`, `multicast` selects `multicast`, `colls` selects `collisions`
and `carrier` selects `tx_carrier_errors` whatever the direction member holds; no
other field value selects a counter.  The newline-terminated line
`eth0 rx frame =1` sets `rx_frame_errors` of `eth0` to 1. -/
theorem counter_mapper_table (cmd : command) (lk : List Char → Option Dev) (σ : Store) :
    (cmd.rx_tx = RX →
      (cmd.field = BYTES → exec_cmd_pval cmd = some .rx_bytes) ∧
      (cmd.field = PACKETS → exec_cmd_pval cmd = some .rx_packets) ∧
      (cmd.field = ERRS → exec_cmd_pval cmd = some .rx_errors) ∧
      (cmd.field = DROP → exec_cmd_pval cmd = some .rx_dropped) ∧
      (cmd.field = FIFO → exec_cmd_pval cmd = some .rx_fifo_errors) ∧
      (cmd.field = COMPRESSED → exec_cmd_pval cmd = some .rx_compressed)) ∧
    (cmd.rx_tx = TX →
      (cmd.field = BYTES → exec_cmd_pval cmd = some .tx_bytes) ∧
      (cmd.field = PACKETS → exec_cmd_pval cmd = some .tx_packets) ∧
      (cmd.field = ERRS → exec_cmd_pval cmd = some .tx_errors) ∧
      (cmd.field = DROP → exec_cmd_pval cmd = some .tx_dropped) ∧
      (cmd.field = FIFO → exec_cmd_pval cmd = some .tx_fifo_errors) ∧
      (cmd.field = COMPRESSED → exec_cmd_pval cmd = some .tx_compressed)) ∧
    (cmd.field = FRAME → exec_cmd_pval cmd = some .rx_frame_errors) ∧
    (cmd.field = MULTICAST → exec_cmd_pval cmd = some .multicast) ∧
    (cmd.field = COLLS → exec_cmd_pval cmd = some .collisions) ∧
    (cmd.field = CARRIER → exec_cmd_pval cmd = some .tx_carrier_errors) ∧
    (CARRIER < cmd.field → exec_cmd_pval cmd = none) ∧
    (∀ d, lk "eth0".toList = some d →
      ifstatfake_proc_write lk σ (some "eth0 rx frame =1\n".toList) =
        some { ret := 17, store := σ.update d ((σ d).set .rx_frame_errors 1), log := [] }) := by
  refine ⟨?_, ?_, ?_, ?_, ?_, ?_, ?_, ?_⟩
  · intro hr
    refine ⟨?_, ?_, ?_, ?_, ?_, ?_⟩ <;> intro hf <;> unfold exec_cmd_pval <;> rw [hf, hr] <;> rfl
  · intro hr
    refine ⟨?_, ?_, ?_, ?_, ?_, ?_⟩ <;> intro hf <;> unfold exec_cmd_pval <;> rw [hf, hr] <;> rfl
  · intro hf; unfold exec_cmd_pval; rw [hf]; rfl
  · intro hf; unfold exec_cmd_pval; rw [hf]; rfl
  · intro hf; unfold exec_cmd_pval; rw [hf]; rfl
  · intro hf; unfold exec_cmd_pval; rw [hf]; rfl
  · intro hf
    simp only [CARRIER] at hf
    unfold exec_cmd_pval
    rw [if_neg (by simp only [BYTES]; omega), if_neg (by simp only [PACKETS]; omega),
      if_neg (by simp only [ERRS]; omega), if_neg (by simp only [DROP]; omega),
      if_neg (by simp only [FIFO]; omega), if_neg (by simp only [FRAME]; omega),
      if_neg (by simp only [COMPRESSED]; omega), if_neg (by simp only [MULTICAST]; omega),
      if_neg (by simp only [COLLS]; omega), if_neg (by simp only [CARRIER]; omega)]
  · intro d hd
    have hl : "eth0 rx frame =1\n".toList.length < CMD_BUF_SIZE := by decide
    have hparse : parse_cmd lk "eth0 rx frame =1\n".toList command.zero =
        some (return_ok (built_command lk "eth0".toList "rx".toList "frame".toList "=1".toList)) := by
      rw [parse_cmd_eq_resolve lk _ _ hl, terminated_tokens_frame]
      rcases resolve_tokens_four lk "eth0".toList "rx".toList "frame".toList "=1".toList
          command.zero with ⟨_, h⟩ | ⟨h, _⟩
      · rw [h]
      · exact absurd ((tokens_resolve_four lk _ _ _ _).mpr
          ⟨by rw [hd]; rfl, by decide, by decide, by decide⟩) h
    have hexec : exec_cmd σ
        (built_command lk "eth0".toList "rx".toList "frame".toList "=1".toList) =
        some (σ.update d ((σ d).set .rx_frame_errors 1)) := by
      have hpv : exec_cmd_pval
          (built_command lk "eth0".toList "rx".toList "frame".toList "=1".toList) =
          some .rx_frame_errors := rfl
      rw [exec_cmd_eq σ
        (built_command lk "eth0".toList "rx".toList "frame".toList "=1".toList) d
        .rx_frame_errors hd hpv]
      rfl
    exact proc_write_of_parse_ok lk σ _ _ _ hl hparse hexec

/-- Witness for C14. -/
theorem counter_mapper_table_witness :
    ifstatfake_proc_write eth0_registry Store.zero (some "eth0 rx frame =1\n".toList) =
      some { ret := 17,
             store := Store.zero.update 0 ((Store.zero 0).set .rx_frame_errors 1), log := [] } ∧
    exec_cmd_pval { dev := some 0, rx_tx := TX, field := FRAME, operation := SET, amount := 1 } =
      some .rx_frame_errors :=
  have h := counter_mapper_table
    { dev := some 0, rx_tx := TX, field := FRAME, operation := SET, amount := 1 }
    eth0_registry Store.zero
  ⟨h.2.2.2.2.2.2.2 0 (by decide), h.2.2.1 rfl⟩

/-- C15: for every line of at most 63 bytes that `parse_cmd` accepts, the command
it built has a device, a field among the ten enum values and an operation among
the three, the field switch of `exec_cmd` assigns `pval`, and `exec_cmd` runs to
its end on every store; so a write to the procfile never dereferences a null
pointer. -/
theorem accepted_command_resolves_slot (lk : List Char → Option Dev) (line : List Char)
    (cmd0 : command) (r : Result) (hlen : line.length ≤ 63)
    (hparse : parse_cmd lk line cmd0 = some r) (hret : r.ret = 0) :
    r.cmd.field ≤ CARRIER ∧
    (r.cmd.operation = SET ∨ r.cmd.operation = ADD ∨ r.cmd.operation = SUB) ∧
    (∃ d, r.cmd.dev = some d) ∧
    (∃ p, exec_cmd_pval r.cmd = some p) ∧
    (∀ σ, ∃ σ', exec_cmd σ r.cmd = some σ') ∧
    (∀ σ buffer, ∃ w, ifstatfake_proc_write lk σ buffer = some w) := by
  have hl : line.length < CMD_BUF_SIZE := by simp only [CMD_BUF_SIZE]; omega
  obtain ⟨d, p, hd, hp, _, hf, ho, _⟩ := accepted_command lk line cmd0 r hl hparse hret
  refine ⟨hf, ?_, ⟨d, hd⟩, ⟨p, hp⟩, ?_, ?_⟩
  · simp only [SUB] at ho
    simp only [SET, ADD, SUB]
    omega
  · intro σ
    obtain ⟨v, hv⟩ := exec_cmd_writes_slot σ r.cmd d p hd hp
    exact ⟨_, hv⟩
  · intro σ buffer
    cases buffer with
    | none => exact ⟨_, rfl⟩
    | some b =>
      have hb := parse_cmd_eq_resolve lk (kbuf_of b) command.zero (kbuf_of_length b)
      unfold ifstatfake_proc_write
      simp only [hb]
      by_cases hz : (resolve_tokens lk (terminated_tokens (kbuf_of b)) NONE command.zero).ret ≠ 0
      · rw [if_pos hz]; exact ⟨_, rfl⟩
      · rw [if_neg hz]
        obtain ⟨d2, p2, hd2, hp2, _⟩ :=
          accepted_command lk (kbuf_of b) command.zero _ (kbuf_of_length b) hb (not_not.mp hz)
        obtain ⟨v, hv⟩ := exec_cmd_writes_slot σ _ d2 p2 hd2 hp2
        simp only [hv]
        exact ⟨_, rfl⟩

/-- Witness for C15. -/
theorem accepted_command_resolves_slot_witness :
    ∃ σ', exec_cmd Store.zero
      { dev := some 0, rx_tx := TX, field := CARRIER, operation := SUB, amount := 3 } = some σ' :=
  (accepted_command_resolves_slot eth0_registry "eth0 tx carrier -3\n".toList command.zero
    (return_ok { dev := some 0, rx_tx := TX, field := CARRIER, operation := SUB, amount := 3 })
    (by decide) rfl rfl).2.2.2.2.1 Store.zero

/-- C16: for every line of at most 63 bytes that `parse_cmd` accepts, `exec_cmd`
on the command it built changes nothing but the one slot the field switch
selects: every other slot of the device, every member of its record no slot
points to, and every other device keep their values, whatever the operation
and the amount; the same holds for every command with a device and a resolved
slot. -/
theorem exec_cmd_writes_one_slot (lk : List Char → Option Dev) (line : List Char)
    (cmd0 : command) (r : Result) (σ : Store) (hlen : line.length ≤ 63)
    (hparse : parse_cmd lk line cmd0 = some r) (hret : r.ret = 0) :
    (∃ d p σ', r.cmd.dev = some d ∧ exec_cmd_pval r.cmd = some p ∧
      exec_cmd σ r.cmd = some σ' ∧
      (∀ q, q ≠ p → (σ' d).get q = (σ d).get q) ∧
      (σ' d).rx_length_errors = (σ d).rx_length_errors ∧
      (σ' d).rx_over_errors = (σ d).rx_over_errors ∧
      (σ' d).rx_crc_errors = (σ d).rx_crc_errors ∧
      (σ' d).rx_missed_errors = (σ d).rx_missed_errors ∧
      (σ' d).tx_aborted_errors = (σ d).tx_aborted_errors ∧
      (σ' d).tx_heartbeat_errors = (σ d).tx_heartbeat_errors ∧
      (σ' d).tx_window_errors = (σ d).tx_window_errors ∧
      σ' d = (σ d).set p ((σ' d).get p) ∧
      (∀ e, e ≠ d → σ' e = σ e)) ∧
    (∀ (cmd : command) (d : Dev) (p : Slot), cmd.dev = some d → exec_cmd_pval cmd = some p →
      ∃ v, exec_cmd σ cmd = some (σ.update d ((σ d).set p v))) := by
  have hl : line.length < CMD_BUF_SIZE := by simp only [CMD_BUF_SIZE]; omega
  obtain ⟨d, p, hd, hp, _⟩ := accepted_command lk line cmd0 r hl hparse hret
  obtain ⟨v, hv⟩ := exec_cmd_writes_slot σ r.cmd d p hd hp
  obtain ⟨m1, m2, m3, m4, m5, m6, m7⟩ := set_other_members (σ d) p v
  refine ⟨⟨d, p, _, hd, hp, hv, ?_, ?_, ?_, ?_, ?_, ?_, ?_, ?_, ?_, ?_⟩,
    fun cmd d p hd hp => exec_cmd_writes_slot σ cmd d p hd hp⟩
  · intro q hq; rw [update_same, get_set_other _ _ _ _ hq]
  · rw [update_same, m1]
  · rw [update_same, m2]
  · rw [update_same, m3]
  · rw [update_same, m4]
  · rw [update_same, m5]
  · rw [update_same, m6]
  · rw [update_same, m7]
  · rw [update_same, get_set_same]
  · intro e he; exact update_other σ d e _ he

/-- Witness for C16. -/
theorem exec_cmd_writes_one_slot_witness :
    ∃ v, exec_cmd store_rx_bytes_5
        { dev := some 0, rx_tx := TX, field := CARRIER, operation := SUB, amount := 3 } =
      some (store_rx_bytes_5.update 0 ((store_rx_bytes_5 0).set .tx_carrier_errors v)) :=
  (exec_cmd_writes_one_slot eth0_registry "eth0 tx carrier -3\n".toList command.zero
    (return_ok { dev := some 0, rx_tx := TX, field := CARRIER, operation := SUB, amount := 3 })
    store_rx_bytes_5 (by decide) rfl rfl).2 _ 0 .tx_carrier_errors rfl rfl

/-- C17: for whitespace characters `w1` and `w2` (space, tab, newline, carriage
return, form feed and vertical tab are such) and every line of at most 63
bytes, `parse_cmd` returns the same value, command and log as on the line
itself when `w2` is put right after or right before the whitespace character
`w1` of the line, when `w1` is replaced by `w2`, and when `w2` is put at the
start of the line (whether or not the line has a whitespace character); it
returns a result on each of these lines, the token buffer is not left. -/
theorem whitespace_runs_collapse (lk : List Char → Option Dev) (cmd : command)
    (a b : List Char) (w1 w2 : Char) (h1 : isspace w1 = true) (h2 : isspace w2 = true)
    (hlen : (a ++ w1 :: b).length ≤ 63) :
    (∃ r, parse_cmd lk (a ++ w1 :: b) cmd = some r) ∧
    parse_cmd lk (a ++ w1 :: w2 :: b) cmd = parse_cmd lk (a ++ w1 :: b) cmd ∧
    parse_cmd lk (a ++ w2 :: w1 :: b) cmd = parse_cmd lk (a ++ w1 :: b) cmd ∧
    parse_cmd lk (a ++ w2 :: b) cmd = parse_cmd lk (a ++ w1 :: b) cmd ∧
    parse_cmd lk (w2 :: (a ++ w1 :: b)) cmd = parse_cmd lk (a ++ w1 :: b) cmd ∧
    (∀ line : List Char, line.length ≤ 63 →
      parse_cmd lk (w2 :: line) cmd = parse_cmd lk line cmd) ∧
    (∀ c ∈ [Char.ofNat 32, Char.ofNat 9, Char.ofNat 10, Char.ofNat 13, Char.ofNat 12,
        Char.ofNat 11], isspace c = true) := by
  simp only [List.length_append, List.length_cons] at hlen
  have hb : buf_fits b 0 := buf_fits_of_length b 0 (by simp only [CMD_BUF_SIZE]; omega)
  have ha : 0 + a.length < CMD_BUF_SIZE := by simp only [CMD_BUF_SIZE]; omega
  have hm : ∀ m, m ≤ 0 + a.length → m < CMD_BUF_SIZE := by
    intro m h; simp only [CMD_BUF_SIZE]; omega
  have f0 : buf_fits (a ++ w1 :: b) 0 :=
    buf_fits_append a _ 0 ha (fun m h => buf_fits_space w1 b m h1 (hm m h) hb)
  have f1 : buf_fits (a ++ w1 :: w2 :: b) 0 :=
    buf_fits_append a _ 0 ha (fun m h =>
      buf_fits_space w1 _ m h1 (hm m h) (buf_fits_space w2 b 0 h2 (by decide) hb))
  have f2 : buf_fits (a ++ w2 :: w1 :: b) 0 :=
    buf_fits_append a _ 0 ha (fun m h =>
      buf_fits_space w2 _ m h2 (hm m h) (buf_fits_space w1 b 0 h1 (by decide) hb))
  have f3 : buf_fits (a ++ w2 :: b) 0 :=
    buf_fits_append a _ 0 ha (fun m h => buf_fits_space w2 b m h2 (hm m h) hb)
  have hstart : ∀ line : List Char, line.length ≤ 63 →
      parse_cmd lk (w2 :: line) cmd = parse_cmd lk line cmd := by
    intro line hl
    have fl : buf_fits line 0 := buf_fits_of_length line 0 (by simp only [CMD_BUF_SIZE]; omega)
    apply parse_cmd_eq_of_fits lk _ _ cmd (buf_fits_space w2 line 0 h2 (by decide) fl) fl
    unfold terminated_tokens
    rw [terminated_tokens_from_space w2 line [] h2, if_pos rfl]
  refine ⟨⟨_, parse_cmd_loop_eq_resolve_of_fits lk _ [] NONE cmd f0 (by decide)⟩,
    ?_, ?_, ?_, ?_, hstart, by decide⟩
  · apply parse_cmd_eq_of_fits lk _ _ cmd f1 f0
    exact terminated_tokens_from_congr _ _
      (fun cur => terminated_tokens_from_space_space w1 w2 b cur h1 h2) a []
  · apply parse_cmd_eq_of_fits lk _ _ cmd f2 f0
    exact terminated_tokens_from_congr _ _
      (fun cur => (terminated_tokens_from_space_space w2 w1 b cur h2 h1).trans
        (terminated_tokens_from_space_swap w2 w1 b cur h2 h1)) a []
  · apply parse_cmd_eq_of_fits lk _ _ cmd f3 f0
    exact terminated_tokens_from_congr _ _
      (fun cur => terminated_tokens_from_space_swap w2 w1 b cur h2 h1) a []
  · exact hstart _ (by simp only [List.length_append, List.length_cons]; omega)

/-- Witness for C17. -/
theorem whitespace_runs_collapse_witness :
    ("eth0".toList ++ ' ' :: ("rx bytes =".toList ++ List.replicate 47 '0' ++
      [Char.ofNat 10])).length = 63 ∧
    parse_cmd eth0_registry
        ("eth0".toList ++ Char.ofNat 9 :: ("rx bytes =".toList ++ List.replicate 47 '0' ++
          [Char.ofNat 10])) command.zero =
      parse_cmd eth0_registry
        ("eth0".toList ++ ' ' :: ("rx bytes =".toList ++ List.replicate 47 '0' ++
          [Char.ofNat 10])) command.zero ∧
    parse_cmd eth0_registry
        ("eth0".toList ++ ' ' :: Char.ofNat 9 :: ("rx bytes =".toList ++
          List.replicate 47 '0' ++ [Char.ofNat 10])) command.zero =
      parse_cmd eth0_registry
        ("eth0".toList ++ ' ' :: ("rx bytes =".toList ++ List.replicate 47 '0' ++
          [Char.ofNat 10])) command.zero :=
  have h := whitespace_runs_collapse eth0_registry command.zero "eth0".toList
    ("rx bytes =".toList ++ List.replicate 47 '0' ++ [Char.ofNat 10]) ' ' (Char.ofNat 9)
    (by decide) (by decide) (by decide)
  ⟨by decide, h.2.2.2.1, h.2.1⟩

/-- C18: appending a whitespace-free string `t` to a line `s`, the whole within
the 63-byte bound, changes neither the value `parse_cmd` returns nor the command
it builds, because the tokens `parse_cmd` resolves are those followed by a
whitespace character: for a NUL-free `s` ending in whitespace they are the
tokens of `s`.  On a line of at most 63 bytes `parse_cmd` returns 0 exactly when
the line has exactly four whitespace-terminated tokens (each non-empty) and
they resolve in the order device, direction, field, operation. -/
theorem unterminated_tail_ignored (lk : List Char → Option Dev) (cmd : command)
    (s t : List Char) (ht : ∀ c ∈ t, isspace c = false) (hlen : (s ++ t).length ≤ 63) :
    parse_cmd lk (s ++ t) cmd = parse_cmd lk s cmd ∧
    (∀ w, NUL ∉ s → s.getLast? = some w → isspace w = true →
      terminated_tokens (s ++ t) = tokens s) ∧
    (∀ line : List Char, line.length ≤ 63 →
      ((∃ r, parse_cmd lk line cmd = some r ∧ r.ret = 0) ↔
        ∃ t1 t2 t3 t4, terminated_tokens line = [t1, t2, t3, t4] ∧
          tokens_resolve lk [t1, t2, t3, t4])) ∧
    (∀ line : List Char, ∀ x ∈ terminated_tokens line, x ≠ []) := by
  have htt : terminated_tokens (s ++ t) = terminated_tokens s :=
    terminated_tokens_from_append_no_space t ht s []
  simp only [List.length_append] at hlen
  refine ⟨?_, ?_, ?_, fun line => terminated_tokens_from_ne_nil line []⟩
  · exact parse_cmd_eq_of_tokens lk _ _ cmd (by simp only [List.length_append]; omega)
      (by omega) htt
  · intro w hn hl hw
    rw [htt]
    exact (tokens_from_eq_terminated s [] w hn hl hw).symm
  · intro line hl
    rw [parse_cmd_eq_resolve lk line cmd (by simp only [CMD_BUF_SIZE]; omega)]
    constructor
    · rintro ⟨r, hr, hz⟩
      rw [← Option.some.inj hr] at hz
      obtain ⟨t1, t2, t3, t4, h1, h2, _⟩ := resolve_tokens_ok lk _ cmd hz
      exact ⟨t1, t2, t3, t4, h1, h2⟩
    · rintro ⟨t1, t2, t3, t4, h1, h2⟩
      rw [h1]
      rcases resolve_tokens_four lk t1 t2 t3 t4 cmd with ⟨_, h⟩ | ⟨h, _⟩
      · exact ⟨_, rfl, by rw [h]; rfl⟩
      · exact absurd h2 h

/-- Witness for C18. -/
theorem unterminated_tail_ignored_witness :
    parse_cmd eth0_registry ("eth0 rx bytes =1 ".toList ++ "junk".toList) command.zero =
      parse_cmd eth0_registry "eth0 rx bytes =1 ".toList command.zero :=
  (unterminated_tail_ignored eth0_registry command.zero "eth0 rx bytes =1 ".toList
    "junk".toList (by decide) (by decide)).1

/-- C19: on every input string of at most 63 bytes every access `buf[ib]` of
`parse_cmd` happens with `ib` below the number of characters consumed, hence
within `0..63`, and `parse_cmd` returns without leaving the buffer; the copy
`kbuf` of `ifstatfake_proc_write` holds at most 63 bytes, so its terminator is
written at an index of at most 63. -/
theorem token_buffer_in_bounds (lk : List Char → Option Dev) (str : List Char) (cmd : command)
    (hlen : str.length ≤ 63) :
    (∀ x ∈ parse_cmd_buf_accesses lk str 0 [] NONE cmd,
      x.2 < x.1 ∧ x.1 ≤ str.length ∧ x.2 < CMD_BUF_SIZE) ∧
    (∃ r, parse_cmd lk str cmd = some r) ∧
    (∀ b : List Char, (kbuf_of b).length ≤ CMD_BUF_SIZE - 1 ∧ (kbuf_of b).length ≤ b.length ∧
      ∃ r, parse_cmd lk (kbuf_of b) cmd = some r) := by
  refine ⟨?_, ⟨_, parse_cmd_eq_resolve lk str cmd (by simp only [CMD_BUF_SIZE]; omega)⟩, ?_⟩
  · intro x hx
    have h := parse_cmd_buf_accesses_bound lk str 0 [] NONE cmd (by simp) x hx
    simp only [Nat.zero_add] at h
    refine ⟨h.1, h.2, ?_⟩
    simp only [CMD_BUF_SIZE]
    omega
  · intro b
    have hk := kbuf_of_length b
    refine ⟨by simp only [CMD_BUF_SIZE] at hk ⊢; omega, ?_,
      ⟨_, parse_cmd_eq_resolve lk (kbuf_of b) cmd hk⟩⟩
    unfold kbuf_of
    simp only [List.length_take]
    omega

/-- Witness for C19. -/
theorem token_buffer_in_bounds_witness :
    ((5, 4) : Nat × Nat) ∈
      parse_cmd_buf_accesses eth0_registry "eth0 rx bytes =100\n".toList 0 [] NONE
        command.zero ∧
    (((5, 4) : Nat × Nat).2 < ((5, 4) : Nat × Nat).1 ∧
      ((5, 4) : Nat × Nat).1 ≤ "eth0 rx bytes =100\n".toList.length ∧
      ((5, 4) : Nat × Nat).2 < CMD_BUF_SIZE) :=
  ⟨by decide,
    (token_buffer_in_bounds eth0_registry "eth0 rx bytes =100\n".toList command.zero
      (by decide)).1 (5, 4) (by decide)⟩

/-- C20: for a command with a device and a resolved slot, a slot value and an
amount below `2 ^ 64`, executing the command as `ADD` and then as `SUB`, or as
`SUB` and then as `ADD`, gives back the initial store: the slot holds its
initial value again and every other counter is as it was. -/
theorem add_sub_inverse (σ : Store) (cmd : command) (d : Dev) (p : Slot)
    (hd : cmd.dev = some d) (hp : exec_cmd_pval cmd = some p)
    (hv : (σ d).get p < ULONG_MOD) (ha : cmd.amount < ULONG_MOD) :
    (∃ σ1, exec_cmd σ { cmd with operation := ADD } = some σ1 ∧
      (σ1 d).get p = ((σ d).get p + cmd.amount) % 2 ^ 64 ∧
      exec_cmd σ1 { cmd with operation := SUB } = some σ) ∧
    (∃ σ1, exec_cmd σ { cmd with operation := SUB } = some σ1 ∧
      (σ1 d).get p = ((σ d).get p + 2 ^ 64 - cmd.amount) % 2 ^ 64 ∧
      exec_cmd σ1 { cmd with operation := ADD } = some σ) := by
  simp only [ULONG_MOD] at hv ha
  have eA := fun τ : Store => exec_cmd_eq τ { cmd with operation := ADD } d p hd hp
  have eS := fun τ : Store => exec_cmd_eq τ { cmd with operation := SUB } d p hd hp
  have hA : ∀ τ : Store, exec_cmd τ { cmd with operation := ADD } =
      some (τ.update d ((τ d).set p (((τ d).get p + cmd.amount) % ULONG_MOD))) := by
    intro τ
    have e : ({ cmd with operation := ADD } : command).operation = ADD := rfl
    have e2 : ({ cmd with operation := ADD } : command).amount = cmd.amount := rfl
    rw [eA τ, e, e2, if_neg (by decide : ¬ ADD = SET), if_pos rfl]
  have hS : ∀ τ : Store, exec_cmd τ { cmd with operation := SUB } =
      some (τ.update d ((τ d).set p
        ((((τ d).get p : Int) - (cmd.amount : Int)) % (ULONG_MOD : Int)).toNat)) := by
    intro τ
    have e : ({ cmd with operation := SUB } : command).operation = SUB := rfl
    have e2 : ({ cmd with operation := SUB } : command).amount = cmd.amount := rfl
    rw [eS τ, e, e2, if_neg (by decide : ¬ SUB = SET), if_neg (by decide : ¬ SUB = ADD),
      if_pos rfl]
  constructor
  · refine ⟨_, hA σ, by rw [update_same, get_set_same], ?_⟩
    rw [hS, update_same, get_set_same, set_set_same, update_update]
    have key : ((((((σ d).get p + cmd.amount) % ULONG_MOD : Nat) : Int) - (cmd.amount : Int)) %
        (ULONG_MOD : Int)).toNat = (σ d).get p := by
      simp only [ULONG_MOD]
      push_cast
      omega
    rw [key, set_get_self, update_self]
  · refine ⟨_, hS σ, ?_, ?_⟩
    · rw [update_same, get_set_same]
      simp only [ULONG_MOD]
      push_cast
      omega
    · rw [hA, update_same, get_set_same, set_set_same, update_update]
      have key : (((((σ d).get p : Int) - (cmd.amount : Int)) % (ULONG_MOD : Int)).toNat +
          cmd.amount) % ULONG_MOD = (σ d).get p := by
        simp only [ULONG_MOD]
        push_cast
        omega
      rw [key, set_get_self, update_self]

/-- Witness for C20. -/
theorem add_sub_inverse_witness :
    (∃ σ1, exec_cmd store_rx_bytes_5
        { dev := some 0, rx_tx := RX, field := BYTES, operation := ADD,
          amount := 18446744073709551615 } = some σ1 ∧
      (σ1 0).get .rx_bytes = ((store_rx_bytes_5 0).get .rx_bytes + 18446744073709551615) % 2 ^ 64 ∧
      exec_cmd σ1
        { dev := some 0, rx_tx := RX, field := BYTES, operation := SUB,
          amount := 18446744073709551615 } = some store_rx_bytes_5) ∧
    (∃ σ1, exec_cmd store_rx_bytes_5
        { dev := some 0, rx_tx := RX, field := BYTES, operation := SUB,
          amount := 18446744073709551615 } = some σ1 ∧
      (σ1 0).get .rx_bytes =
        ((store_rx_bytes_5 0).get .rx_bytes + 2 ^ 64 - 18446744073709551615) % 2 ^ 64 ∧
      exec_cmd σ1
        { dev := some 0, rx_tx := RX, field := BYTES, operation := ADD,
          amount := 18446744073709551615 } = some store_rx_bytes_5) :=
  add_sub_inverse store_rx_bytes_5
    { dev := some 0, rx_tx := RX, field := BYTES, operation := SET,
      amount := 18446744073709551615 } 0 .rx_bytes rfl rfl (by decide) (by decide)

end Ifstatfake
